import Mathlib

/-!
Verification of the ShredOS vault secure-wipe engine.

Shallow embedding of the wipe engine of `package/shredos-vault/src/wipe.c`
(the unified direct-I/O engine), of the macOS engine
`package/shredos-vault/src/macos/secure_wipe.c`, of the dead-man trigger
`package/shredos-vault/src/deadman.c`, and of the standalone wipe CLI
(`main` of secure_wipe.c).  Pure data (the Gutmann and DoD pass tables) is
transcribed literally; the I/O loops are embedded as fuel-indexed functions
over an explicit environment that decides the outcome of each `write`/`read`
call, of the CSPRNG, and of the progress callback.
-/

namespace ShredOS

/-- Entry of the `gutmann_pass_t` tables: the `is_random` flag and the
`pattern_len` meaningful bytes of the `pattern[3]` array. -/
structure GutmannPass where
  is_random : Bool
  pattern : List Nat
deriving DecidableEq, Repr

/-- The `GP_RAND` macro of secure_wipe.c (also `{1,0,{0}}` in wipe.c). -/
def GP_RAND : GutmannPass := ⟨true, []⟩

/-- The `GP1` macro of secure_wipe.c: one-byte pattern. -/
def GP1 (a : Nat) : GutmannPass := ⟨false, [a]⟩

/-- The `GP3` macro of secure_wipe.c: three-byte pattern. -/
def GP3 (a b c : Nat) : GutmannPass := ⟨false, [a, b, c]⟩

/-- The `gutmann_passes[35]` table of wipe.c (lines 73–96), transcribed
entry by entry. -/
def gutmann_passes : List GutmannPass :=
  [GP_RAND, GP_RAND, GP_RAND, GP_RAND,
   GP1 0x55, GP1 0xAA, GP3 0x92 0x49 0x24, GP3 0x49 0x24 0x92, GP3 0x24 0x92 0x49,
   GP1 0x00, GP1 0x11, GP1 0x22, GP1 0x33, GP1 0x44,
   GP1 0x55, GP1 0x66, GP1 0x77, GP1 0x88, GP1 0x99,
   GP1 0xAA, GP1 0xBB, GP1 0xCC, GP1 0xDD, GP1 0xEE,
   GP1 0xFF, GP3 0x92 0x49 0x24, GP3 0x49 0x24 0x92,
   GP3 0x24 0x92 0x49, GP3 0x6D 0xB6 0xDB, GP3 0xB6 0xDB 0x6D, GP3 0xDB 0x6D 0xB6,
   GP_RAND, GP_RAND, GP_RAND, GP_RAND]

/-- The `gutmann_passes[35]` table of macos/secure_wipe.c (lines 63–82).
The C initializer lists only 34 entries for a 35-element array (the block
commented `32-35: random` holds three `GP_RAND`s, not four), so the C
compiler zero-fills the last element, yielding
`{is_random = false, pattern_len = 0}`. -/
def macos_gutmann_passes : List GutmannPass :=
  [GP_RAND, GP_RAND, GP_RAND, GP_RAND,
   GP1 0x55, GP1 0xAA, GP3 0x92 0x49 0x24, GP3 0x49 0x24 0x92, GP3 0x24 0x92 0x49,
   GP1 0x00, GP1 0x11, GP1 0x22, GP1 0x33, GP1 0x44,
   GP1 0x55, GP1 0x66, GP1 0x77, GP1 0x88, GP1 0x99,
   GP1 0xAA, GP1 0xBB, GP1 0xCC, GP1 0xDD, GP1 0xEE,
   GP1 0xFF, GP3 0x92 0x49 0x24, GP3 0x49 0x24 0x92,
   GP3 0x24 0x92 0x49, GP3 0x6D 0xB6 0xDB, GP3 0xB6 0xDB 0x6D, GP3 0xDB 0x6D 0xB6,
   GP_RAND, GP_RAND, GP_RAND, ⟨false, []⟩]

/-- Entry of the `dod_pass_t` tables (`is_random` flag and fill byte).
The byte values are identical in wipe.c lines 104–107 and
secure_wipe.c lines 541–549. -/
structure DodPass where
  is_random : Bool
  byte : Nat
deriving DecidableEq, Repr

/-- The `dod_passes[7]` table. -/
def dod_passes : List DodPass :=
  [⟨false, 0x00⟩, ⟨false, 0xFF⟩, ⟨true, 0⟩,
   ⟨false, 0x00⟩, ⟨false, 0xFF⟩, ⟨true, 0⟩, ⟨true, 0⟩]

/-- Modelled from the spec (§8, the published Gutmann table), for comparison
with the tables transcribed from the source: passes 1–4 random, pass 5 =
0x55, pass 6 = 0xAA, passes 7–9 the cyclic rotations of {0x92,0x49,0x24},
passes 10–25 the single-byte sweep 0x00, 0x11, …, 0xFF, passes 26–28 the
rotations of {0x92,0x49,0x24} again, passes 29–31 the rotations of
{0x6D,0xB6,0xDB}, passes 32–35 random. -/
def publishedGutmannTable : List GutmannPass :=
  List.replicate 4 GP_RAND
    ++ [GP1 0x55, GP1 0xAA]
    ++ [GP3 0x92 0x49 0x24, GP3 0x49 0x24 0x92, GP3 0x24 0x92 0x49]
    ++ (List.range 16).map (fun i => GP1 (i * 0x11))
    ++ [GP3 0x92 0x49 0x24, GP3 0x49 0x24 0x92, GP3 0x24 0x92 0x49]
    ++ [GP3 0x6D 0xB6 0xDB, GP3 0xB6 0xDB 0x6D, GP3 0xDB 0x6D 0xB6]
    ++ List.replicate 4 GP_RAND

/-- The `PassSpec` invariant of the spec (§3): a non-random pass has a
pattern of length exactly 1 or 3. -/
def passSpecInvariant (gp : GutmannPass) : Prop :=
  gp.is_random = false → gp.pattern.length = 1 ∨ gp.pattern.length = 3

instance (gp : GutmannPass) : Decidable (passSpecInvariant gp) := by
  unfold passSpecInvariant; infer_instance

/-- The `fill_pattern` routine (wipe.c lines 136–145, secure_wipe.c lines
154–163): `memset` for one-byte patterns, otherwise
`buf[i] = pattern[i % pattern_len]`.  When `pattern_len = 0` the modulo is
a division by zero, which C leaves undefined: modelled as `none`. -/
def fill_pattern (len : Nat) (pattern : List Nat) : Option (List Nat) :=
  if pattern.length = 1 then
    some (List.replicate len (pattern.getD 0 0))
  else if pattern.length = 0 then
    none
  else
    some ((List.range len).map (fun i => pattern.getD (i % pattern.length) 0))

/-- Outcome of one `write(2)`/`read(2)` call as seen by a pass loop:
the call transferred the full requested chunk, transferred `n` bytes
(a short transfer when `n` differs from the chunk), failed with
`errno == EINTR`, or failed with another errno. -/
inductive IOOutcome
  | ok
  | short (n : Nat)
  | intr
  | fail
deriving DecidableEq, Repr

/-- Environment of one write pass, indexed by loop iteration: whether the
initial `lseek` succeeds, the outcome of each `write`, whether each
`fill_random` succeeds, whether the throttled progress report fires
(`progress_cb` non-NULL and more than 0.5 s since the last report), and
what the progress callback answers (`true` = non-zero = abort request). -/
structure PassEnv where
  seekOk : Bool
  write : Nat → IOOutcome
  randomOk : Nat → Bool
  report : Nat → Bool
  stop : Nat → Bool

/-- Structured errors of the engines.  Each constructor mirrors one
distinct `snprintf`/`fprintf` diagnostic of the source (`hang` marks a
C loop that does not terminate, `undefinedFill` marks `fill_pattern`
called with `pattern_len == 0`, where the C modulo is undefined). -/
inductive WipeErr
  | seekFailed (passNum : Nat)
  | invalidPattern (passNum : Nat)
  | randomFailed (passNum : Nat)
  | writeError (passNum offset : Nat)
  | shortWrite (passNum offset : Nat)
  | userAborted (passNum : Nat)
  | undefinedFill (passNum : Nat)
  | readError (passNum offset : Nat)
  | shortRead (passNum offset : Nat)
  | verifyMismatch (passNum offset : Nat)
  | verifyAborted (passNum : Nat)
  | verifyOpenFailed (passNum : Nat)
  | sizeUnknown
  | openFailed
  | allocFailed
  | unknownAlgorithm
  | hang
deriving DecidableEq, Repr

/-- Observable result of one write pass: bytes successfully written, the
sizes of the completed chunk writes in order, the error (if any), and
whether the final physical-media flush was reached. -/
structure PassTrace where
  written : Nat
  chunks : List Nat
  err : Option WipeErr
  synced : Bool
deriving DecidableEq, Repr

/-- The while-loop of `do_write_pass` (secure_wipe.c lines 351–413),
fuel-indexed.  Per iteration: compute the chunk (`buf_size`, truncated at
the device end), fill the buffer (random or pattern), `write` it —
`EINTR` retries, another errno is a write error at the current offset, a
transfer different from the chunk is a short write — account the bytes,
and run the throttled progress callback, honouring an abort request.
After the loop the `F_FULLFSYNC` flush is issued (`synced`). -/
def macWriteLoop (env : PassEnv) (passNum N B : Nat) (isRand : Bool)
    (pat : List Nat) : Nat → Nat → Nat → List Nat → PassTrace
  | 0, written, _, chunks => ⟨written, chunks, some .hang, false⟩
  | fuel + 1, written, idx, chunks =>
    if written < N then
      let chunk := if written + B > N then N - written else B
      if isRand ∧ ¬env.randomOk idx then
        ⟨written, chunks, some (.randomFailed passNum), false⟩
      else if ¬isRand ∧ pat.length = 0 then
        ⟨written, chunks, some (.undefinedFill passNum), false⟩
      else
        match env.write idx with
        | .fail => ⟨written, chunks, some (.writeError passNum written), false⟩
        | .intr => macWriteLoop env passNum N B isRand pat fuel written (idx + 1) chunks
        | .short n =>
          if n = chunk then
            if env.report idx ∧ env.stop idx then
              ⟨written + chunk, chunks ++ [chunk], some (.userAborted passNum), false⟩
            else
              macWriteLoop env passNum N B isRand pat fuel (written + chunk) (idx + 1)
                (chunks ++ [chunk])
          else ⟨written, chunks, some (.shortWrite passNum written), false⟩
        | .ok =>
          if env.report idx ∧ env.stop idx then
            ⟨written + chunk, chunks ++ [chunk], some (.userAborted passNum), false⟩
          else
            macWriteLoop env passNum N B isRand pat fuel (written + chunk) (idx + 1)
              (chunks ++ [chunk])
    else ⟨written, chunks, none, true⟩

/-- The `do_write_pass` executor of secure_wipe.c (lines 332–422): seek to
the beginning (failure is a per-pass error), then the write loop. -/
def do_write_pass (env : PassEnv) (passNum N B : Nat) (isRand : Bool)
    (pat : List Nat) (fuel : Nat) : PassTrace :=
  if env.seekOk then macWriteLoop env passNum N B isRand pat fuel 0 0 []
  else ⟨0, [], some (.seekFailed passNum), false⟩

/-- The while-loop of `do_direct_pass` (wipe.c lines 510–559), fuel-indexed.
Unlike the macOS loop it never checks for short writes (`written += wr`
takes whatever the call transferred and continues) and its progress
callback returns `void`, so the `report`/`stop` fields of the environment
are ignored. -/
def directWriteLoop (env : PassEnv) (passNum N B : Nat) (isRand : Bool)
    (pat : List Nat) : Nat → Nat → Nat → List Nat → PassTrace
  | 0, written, _, chunks => ⟨written, chunks, some .hang, false⟩
  | fuel + 1, written, idx, chunks =>
    if written < N then
      let chunk := if written + B > N then N - written else B
      if isRand ∧ ¬env.randomOk idx then
        ⟨written, chunks, some (.randomFailed passNum), false⟩
      else
        match env.write idx with
        | .fail => ⟨written, chunks, some (.writeError passNum written), false⟩
        | .intr => directWriteLoop env passNum N B isRand pat fuel written (idx + 1) chunks
        | .short n =>
          directWriteLoop env passNum N B isRand pat fuel (written + n) (idx + 1)
            (chunks ++ [n])
        | .ok =>
          directWriteLoop env passNum N B isRand pat fuel (written + chunk) (idx + 1)
            (chunks ++ [chunk])
    else ⟨written, chunks, none, true⟩

/-- The `do_direct_pass` executor of wipe.c (lines 489–563): reject a
non-random pass whose pattern is NULL or empty, seek to the beginning,
then the write loop, then `disk_sync`. -/
def do_direct_pass (env : PassEnv) (passNum N B : Nat) (isRand : Bool)
    (pat : List Nat) (fuel : Nat) : PassTrace :=
  if ¬isRand ∧ pat.length = 0 then ⟨0, [], some (.invalidPattern passNum), false⟩
  else if env.seekOk then directWriteLoop env passNum N B isRand pat fuel 0 0 []
  else ⟨0, [], some (.seekFailed passNum), false⟩

/-- Environment of one verify pass: whether the read-only open / initial
seek succeeds, the outcome of each `read`, the data a successful read
delivers, and the progress-callback behaviour. -/
structure VerifyEnv where
  openOk : Bool
  seekOk : Bool
  read : Nat → IOOutcome
  readData : Nat → List Nat
  report : Nat → Bool
  stop : Nat → Bool

/-- Observable result of one verify pass: bytes verified, number of
completed chunk reads, number of `memcmp` byte comparisons performed, the
error (if any), and the `verification_failures` increments. -/
structure VerifyTrace where
  verified : Nat
  reads : Nat
  compares : Nat
  err : Option WipeErr
  vfails : Nat
deriving DecidableEq, Repr

/-- The while-loop of `do_verify_pass` (secure_wipe.c lines 452–519),
fuel-indexed.  Per iteration: `read` a chunk (`EINTR` retries, another
errno is a read error, a transfer different from the chunk a short read,
both counted as verification failures), then — only for non-random
passes — regenerate the expected pattern and `memcmp` it against the data
read (a mismatch is a verification failure at the current offset), then
the throttled progress callback, honouring an abort request. -/
def macVerifyLoop (env : VerifyEnv) (passNum N B : Nat) (isRand : Bool)
    (pat : List Nat) : Nat → Nat → Nat → Nat → Nat → VerifyTrace
  | 0, verified, _, reads, compares => ⟨verified, reads, compares, some .hang, 0⟩
  | fuel + 1, verified, idx, reads, compares =>
    if verified < N then
      let chunk := if verified + B > N then N - verified else B
      match env.read idx with
      | .fail => ⟨verified, reads, compares, some (.readError passNum verified), 1⟩
      | .intr => macVerifyLoop env passNum N B isRand pat fuel verified (idx + 1) reads compares
      | .short n =>
        if n = chunk then
          if ¬isRand then
            match fill_pattern chunk pat with
            | none => ⟨verified, reads, compares, some (.undefinedFill passNum), 0⟩
            | some expected =>
              if env.readData idx ≠ expected then
                ⟨verified, reads + 1, compares + 1, some (.verifyMismatch passNum verified), 1⟩
              else if env.report idx ∧ env.stop idx then
                ⟨verified + chunk, reads + 1, compares + 1, some (.verifyAborted passNum), 0⟩
              else
                macVerifyLoop env passNum N B isRand pat fuel (verified + chunk) (idx + 1)
                  (reads + 1) (compares + 1)
          else if env.report idx ∧ env.stop idx then
            ⟨verified + chunk, reads + 1, compares, some (.verifyAborted passNum), 0⟩
          else
            macVerifyLoop env passNum N B isRand pat fuel (verified + chunk) (idx + 1)
              (reads + 1) compares
        else ⟨verified, reads, compares, some (.shortRead passNum verified), 1⟩
      | .ok =>
        if ¬isRand then
          match fill_pattern chunk pat with
          | none => ⟨verified, reads, compares, some (.undefinedFill passNum), 0⟩
          | some expected =>
            if env.readData idx ≠ expected then
              ⟨verified, reads + 1, compares + 1, some (.verifyMismatch passNum verified), 1⟩
            else if env.report idx ∧ env.stop idx then
              ⟨verified + chunk, reads + 1, compares + 1, some (.verifyAborted passNum), 0⟩
            else
              macVerifyLoop env passNum N B isRand pat fuel (verified + chunk) (idx + 1)
                (reads + 1) (compares + 1)
        else if env.report idx ∧ env.stop idx then
          ⟨verified + chunk, reads + 1, compares, some (.verifyAborted passNum), 0⟩
        else
          macVerifyLoop env passNum N B isRand pat fuel (verified + chunk) (idx + 1)
            (reads + 1) compares
    else ⟨verified, reads, compares, none, 0⟩

/-- The `do_verify_pass` executor of secure_wipe.c (lines 428–522): seek
to the beginning of the read-only descriptor, then the verify loop.  The
`vfails` field accumulates the `result->verification_failures` increments
made inside the pass. -/
def do_verify_pass (env : VerifyEnv) (passNum N B : Nat) (isRand : Bool)
    (pat : List Nat) (fuel : Nat) : VerifyTrace :=
  if env.seekOk then macVerifyLoop env passNum N B isRand pat fuel 0 0 0 0
  else ⟨0, 0, 0, some (.seekFailed passNum), 0⟩

/-- The while-loop of `do_direct_verify` (wipe.c lines 592–646),
fuel-indexed.  Differences from the macOS loop: a short read is not
detected (the loop compares the full chunk and then advances by the
transferred count), and there is no `verification_failures` counter. -/
def directVerifyLoop (env : VerifyEnv) (passNum N B : Nat) (isRand : Bool)
    (pat : List Nat) : Nat → Nat → Nat → Nat → Nat → VerifyTrace
  | 0, verified, _, reads, compares => ⟨verified, reads, compares, some .hang, 0⟩
  | fuel + 1, verified, idx, reads, compares =>
    if verified < N then
      let chunk := if verified + B > N then N - verified else B
      match env.read idx with
      | .fail => ⟨verified, reads, compares, some (.readError passNum verified), 0⟩
      | .intr => directVerifyLoop env passNum N B isRand pat fuel verified (idx + 1) reads compares
      | .short n =>
        if ¬isRand then
          match fill_pattern chunk pat with
          | none => ⟨verified, reads, compares, some (.undefinedFill passNum), 0⟩
          | some expected =>
            if env.readData idx ≠ expected then
              ⟨verified, reads + 1, compares + 1, some (.verifyMismatch passNum verified), 0⟩
            else
              directVerifyLoop env passNum N B isRand pat fuel (verified + n) (idx + 1)
                (reads + 1) (compares + 1)
        else
          directVerifyLoop env passNum N B isRand pat fuel (verified + n) (idx + 1)
            (reads + 1) compares
      | .ok =>
        if ¬isRand then
          match fill_pattern chunk pat with
          | none => ⟨verified, reads, compares, some (.undefinedFill passNum), 0⟩
          | some expected =>
            if env.readData idx ≠ expected then
              ⟨verified, reads + 1, compares + 1, some (.verifyMismatch passNum verified), 0⟩
            else
              directVerifyLoop env passNum N B isRand pat fuel (verified + chunk) (idx + 1)
                (reads + 1) (compares + 1)
        else
          directVerifyLoop env passNum N B isRand pat fuel (verified + chunk) (idx + 1)
            (reads + 1) compares
    else ⟨verified, reads, compares, none, 0⟩

/-- The `do_direct_verify` executor of wipe.c (lines 569–650): reject a
non-random pass with a NULL or empty pattern, open the device read-only
(failure is an error), then the verify loop. -/
def do_direct_verify (env : VerifyEnv) (passNum N B : Nat) (isRand : Bool)
    (pat : List Nat) (fuel : Nat) : VerifyTrace :=
  if ¬isRand ∧ pat.length = 0 then ⟨0, 0, 0, some (.invalidPattern passNum), 0⟩
  else if env.openOk then directVerifyLoop env passNum N B isRand pat fuel 0 0 0 0
  else ⟨0, 0, 0, some (.verifyOpenFailed passNum), 0⟩

/-- The `wipe_algorithm_t` enum of secure_wipe.h (ALG_*; `count` is
`ALG_COUNT`, also the sentinel `parse_algorithm` returns for an invalid
name). -/
inductive MacAlg
  | gutmann
  | dod
  | schneier
  | random
  | zero
  | count
deriving DecidableEq, Repr

/-- The pass counts of the `algorithm_info` table of secure_wipe.c
(`wipe_algorithm_passes`, returning 0 for `alg >= ALG_COUNT`). -/
def wipe_algorithm_passes (alg : MacAlg) : Nat :=
  match alg with
  | .gutmann => 35
  | .dod => 7
  | .schneier => 3
  | .random => 1
  | .zero => 1
  | .count => 0

/-- One entry of an engine's pass dispatch: the arguments the call site
passes to the write executor (`is_random`, pattern) and whether the call
site's guard requests a verify pass after it. -/
structure EnginePass where
  isRand : Bool
  pat : List Nat
  wantVerify : Bool
deriving DecidableEq, Repr

/-- The per-algorithm dispatch of `wipe_execute` (secure_wipe.c lines
623–761), entry by entry: Gutmann iterates its 35-entry table and
verifies when `config->verify && !gp->is_random`; DoD its 7 entries (the
call site always passes `pat[1] = {dp->byte}` with length 1) with the same
guard; Schneier runs three random passes and verifies (readability only)
whenever `config->verify`; Random one unverified random pass; Zero one
0x00 pass verified when `config->verify`.  `none` is the `default:` branch
(unknown algorithm). -/
def macPassPlan (alg : MacAlg) (verify : Bool) : Option (List EnginePass) :=
  match alg with
  | .gutmann =>
    some (macos_gutmann_passes.map
      (fun gp => ⟨gp.is_random, gp.pattern, verify && !gp.is_random⟩))
  | .dod =>
    some (dod_passes.map
      (fun dp => ⟨dp.is_random, [dp.byte], verify && !dp.is_random⟩))
  | .schneier => some (List.replicate 3 ⟨true, [], verify⟩)
  | .random => some [⟨true, [], false⟩]
  | .zero => some [⟨false, [0x00], verify⟩]
  | .count => none

/-- Accumulator of `wipe_execute`'s pass loop, mirroring the fields of
`wipe_result_t` that the loop updates, plus the full list of executor
invocations (pass number, `is_random` argument, trace) for the write and
verify phases. -/
structure EngineState where
  passes_completed : Nat
  verification_failures : Nat
  total_bytes_written : Nat
  writeCalls : List (Nat × Bool × PassTrace)
  verifyCalls : List (Nat × Bool × VerifyTrace)
  err : Option WipeErr
deriving DecidableEq, Repr

/-- Per-pass environments of an engine run: the write-pass environment, the
result of the read-only `open` made for verification, and the verify-pass
environment, each indexed by the 0-based pass index. -/
structure EngineEnv where
  wenvs : Nat → PassEnv
  vopens : Nat → Bool
  venvs : Nat → VerifyEnv

/-- The pass loop shared by the algorithm cases of `wipe_execute`
(`for (p...; ... && ret == 0)`): run the write pass, account its bytes
into `total_bytes_written`, stop on its error; otherwise count the pass
completed and, when the call-site guard requests it and the read-only
re-open succeeds, run the verify pass (when the re-open fails the C
silently skips verification), accumulate its `verification_failures`, and
stop on its error. -/
def macRunPasses (eenv : EngineEnv) (N B fuel : Nat) :
    List EnginePass → Nat → EngineState → EngineState
  | [], _, st => st
  | ep :: rest, p, st =>
    let wt := do_write_pass (eenv.wenvs p) (p + 1) N B ep.isRand ep.pat fuel
    let st1 : EngineState :=
      { st with
        total_bytes_written := st.total_bytes_written + wt.written
        writeCalls := st.writeCalls ++ [(p + 1, ep.isRand, wt)] }
    match wt.err with
    | some e => { st1 with err := some e }
    | none =>
      let st2 := { st1 with passes_completed := st1.passes_completed + 1 }
      if ep.wantVerify then
        if eenv.vopens p then
          let vt := do_verify_pass (eenv.venvs p) (p + 1) N B ep.isRand ep.pat fuel
          let st3 : EngineState :=
            { st2 with
              verifyCalls := st2.verifyCalls ++ [(p + 1, ep.isRand, vt)]
              verification_failures := st2.verification_failures + vt.vfails }
          match vt.err with
          | some e => { st3 with err := some e }
          | none => macRunPasses eenv N B fuel rest (p + 1) st3
        else macRunPasses eenv N B fuel rest (p + 1) st2
      else macRunPasses eenv N B fuel rest (p + 1) st2

/-- The fields of `wipe_result_t` relevant to the embedding (drive type and
wall-clock times are advisory floats and are not modelled), plus the
engine's return value and the executor invocation traces. -/
structure WipeResult where
  passes_completed : Nat
  total_passes : Nat
  verification_failures : Nat
  total_bytes_written : Nat
  completed : Bool
  err : Option WipeErr
  ret : Int
  writeCalls : List (Nat × Bool × PassTrace)
  verifyCalls : List (Nat × Bool × VerifyTrace)
deriving DecidableEq, Repr

/-- The `wipe_execute` engine of secure_wipe.c (lines 555–771): zero the
result, record `total_passes`, fail if the disk size cannot be determined,
if the raw device cannot be opened for writing, or if the buffers cannot
be allocated (all with `completed = false`), then dispatch on the
algorithm (`default:` reports an unknown algorithm) and run the pass loop;
finally `completed = (ret == 0)`.  `N` is the detected disk size, `B` the
I/O buffer size. -/
def wipe_execute (alg : MacAlg) (verify : Bool) (N B : Nat)
    (openOk allocOk : Bool) (eenv : EngineEnv) (fuel : Nat) : WipeResult :=
  let total := wipe_algorithm_passes alg
  if N = 0 then
    ⟨0, total, 0, 0, false, some .sizeUnknown, -1, [], []⟩
  else if ¬openOk then
    ⟨0, total, 0, 0, false, some .openFailed, -1, [], []⟩
  else if ¬allocOk then
    ⟨0, total, 0, 0, false, some .allocFailed, -1, [], []⟩
  else
    match macPassPlan alg verify with
    | none => ⟨0, total, 0, 0, false, some .unknownAlgorithm, -1, [], []⟩
    | some plan =>
      let st := macRunPasses eenv N B fuel plan 0 ⟨0, 0, 0, [], [], none⟩
      { passes_completed := st.passes_completed
        total_passes := total
        verification_failures := st.verification_failures
        total_bytes_written := st.total_bytes_written
        completed := st.err = none
        err := st.err
        ret := if st.err = none then 0 else -1
        writeCalls := st.writeCalls
        verifyCalls := st.verifyCalls }

/-- The `wipe_algorithm_t` enum of config.h (WIPE_*), used by the unified
engine of wipe.c and by the dead-man trigger. -/
inductive VaultAlg
  | gutmann
  | dod
  | dodShort
  | random
  | zero
  | verifyOnly
  | count
deriving DecidableEq, Repr

/-- The per-algorithm dispatch of `vault_wipe_device_direct` (wipe.c lines
781–859): Gutmann and DoD iterate their tables (verify guard
`ret == 0 && verify && !is_random`); DoD-Short runs three unverified
random passes (pattern `NULL`, length 0); Random one unverified random
pass; Zero one 0x00 pass verified when `verify`.  `none` is the `default:`
branch, reached for `WIPE_VERIFY_ONLY` and any other value. -/
def directPassPlan (alg : VaultAlg) (verify : Bool) : Option (List EnginePass) :=
  match alg with
  | .gutmann =>
    some (gutmann_passes.map
      (fun gp => ⟨gp.is_random, gp.pattern, verify && !gp.is_random⟩))
  | .dod =>
    some (dod_passes.map
      (fun dp => ⟨dp.is_random, [dp.byte], verify && !dp.is_random⟩))
  | .dodShort => some (List.replicate 3 ⟨true, [], false⟩)
  | .random => some [⟨true, [], false⟩]
  | .zero => some [⟨false, [0x00], verify⟩]
  | .verifyOnly => none
  | .count => none

/-- Observable result of a `vault_wipe_device_direct` run: the function's
return value and the executor invocations it made. -/
structure DirectTrace where
  ret : Int
  writeCalls : List (Nat × Bool × PassTrace)
  verifyCalls : List (Nat × Bool × VerifyTrace)
deriving DecidableEq, Repr

/-- The pass loop of `vault_wipe_device_direct` (`for (p...; ... &&
ret == 0)`): run `do_direct_pass`, stop on its error, else run
`do_direct_verify` when the call-site guard requests it (here a failed
read-only open is an error: `do_direct_verify` returns -1 itself), and
stop on its error. -/
def directRunPasses (eenv : EngineEnv) (N B fuel : Nat) :
    List EnginePass → Nat → DirectTrace → DirectTrace
  | [], _, st => st
  | ep :: rest, p, st =>
    let wt := do_direct_pass (eenv.wenvs p) (p + 1) N B ep.isRand ep.pat fuel
    let st1 : DirectTrace :=
      { st with writeCalls := st.writeCalls ++ [(p + 1, ep.isRand, wt)] }
    match wt.err with
    | some _ => { st1 with ret := -1 }
    | none =>
      if ep.wantVerify then
        let vt := do_direct_verify
          { eenv.venvs p with openOk := eenv.vopens p } (p + 1) N B ep.isRand ep.pat fuel
        let st2 : DirectTrace :=
          { st1 with verifyCalls := st1.verifyCalls ++ [(p + 1, ep.isRand, vt)] }
        match vt.err with
        | some _ => { st2 with ret := -1 }
        | none => directRunPasses eenv N B fuel rest (p + 1) st2
      else directRunPasses eenv N B fuel rest (p + 1) st1

/-- The `vault_wipe_device_direct` engine of wipe.c (lines 731–865):
resolve the device path and emit the SSD advisory (not modelled — neither
affects the result), fail if the device size cannot be determined, if the
device cannot be opened for writing, or if the buffers cannot be
allocated, then dispatch on the algorithm (`default:` returns -1 without
running any pass) and run the pass loop. -/
def vault_wipe_device_direct (alg : VaultAlg) (verify : Bool) (N B : Nat)
    (openOk allocOk : Bool) (eenv : EngineEnv) (fuel : Nat) : DirectTrace :=
  if N = 0 then ⟨-1, [], []⟩
  else if ¬openOk then ⟨-1, [], []⟩
  else if ¬allocOk then ⟨-1, [], []⟩
  else
    match directPassPlan alg verify with
    | none => ⟨-1, [], []⟩
    | some plan => directRunPasses eenv N B fuel plan 0 ⟨0, [], []⟩

/-- Observable steps of the dead-man sequence (deadman.c).  TUI status
messages are not modelled; `wipeCall` is the primary `vault_wipe_device`
invocation, `directWipeCall` the `vault_wipe_device_direct` fallback. -/
inductive DeadmanEvent
  | blockSignals
  | countdown (secs : Nat)
  | preCleanup
  | encryptAttempt (ok : Bool)
  | wipeCall (alg : VaultAlg) (verify : Bool)
  | directWipeCall (alg : VaultAlg) (verify : Bool)
  | syncCall
  | powerOff
deriving DecidableEq, Repr

/-- Environment of a dead-man run: availability of the LUKS wrapper, the
outcome of the random-key format, and the return values of the primary
wipe and of the fallback wipe (the code ignores the latter). -/
structure DeadmanEnv where
  luksAvailable : Bool
  encryptOk : Bool
  primaryRet : Int
  fallbackRet : Int

/-- The `vault_deadman_trigger` sequence (deadman.c lines 115–159): block
all signals, show the countdown (`DEADMAN_COUNTDOWN_SECONDS = 5`),
pre-wipe cleanup, optionally format the target with a random key
(failure only prints a status), invoke `vault_wipe_device` with the
configured algorithm and verify flag, on a non-zero result invoke
`vault_wipe_device_direct(device, WIPE_RANDOM, 0, NULL)` once (its result
is discarded), then `sync()` and power off. -/
def vault_deadman_trigger (encryptBeforeWipe : Bool) (alg : VaultAlg)
    (verifyPasses : Bool) (env : DeadmanEnv) : List DeadmanEvent :=
  [.blockSignals, .countdown 5, .preCleanup]
    ++ (if encryptBeforeWipe ∧ env.luksAvailable then [.encryptAttempt env.encryptOk] else [])
    ++ [.wipeCall alg verifyPasses]
    ++ (if env.primaryRet ≠ 0 then [.directWipeCall .random false] else [])
    ++ [.syncCall, .powerOff]

/-- Predicate selecting the wipe-engine invocations of a dead-man trace. -/
def isWipeInvocation : DeadmanEvent → Bool
  | .wipeCall _ _ => true
  | .directWipeCall _ _ => true
  | _ => false

/-- ASCII lower-casing of one byte, as `strcasecmp` performs it. -/
def asciiLowerNat (n : Nat) : Nat := if 65 ≤ n ∧ n ≤ 90 then n + 32 else n

/-- Case-insensitive string equality (the `strcasecmp(a, b) == 0` test),
over the strings' character codes. -/
def strcaseEq (a b : String) : Bool :=
  a.data.map (fun c => asciiLowerNat c.toNat) ==
    b.data.map (fun c => asciiLowerNat c.toNat)

/-- The `parse_algorithm` helper of secure_wipe.c (lines 826–834); an
unrecognized name yields `ALG_COUNT`. -/
def parse_algorithm (name : String) : MacAlg :=
  if strcaseEq name "gutmann" then .gutmann
  else if strcaseEq name "dod" then .dod
  else if strcaseEq name "schneier" then .schneier
  else if strcaseEq name "random" then .random
  else if strcaseEq name "zero" then .zero
  else .count

/-- The CLI options `main` accumulates while parsing `argv`. -/
structure CliOpts where
  device : Option String
  algorithm : MacAlg
  verify : Bool
  force : Bool
  info : Bool
deriving DecidableEq, Repr

/-- The initial option values of `main` (no device, `ALG_COUNT`, all flags
false). -/
def initOpts : CliOpts := ⟨none, .count, false, false, false⟩

/-- Result of the argument loop: an early `return` with an exit code
(`--help` exits 0, an unknown option exits 1) or the parsed options. -/
inductive ParseOut
  | exit (code : Int)
  | opts (o : CliOpts)
deriving DecidableEq, Repr

/-- The argument loop of `main` (secure_wipe.c lines 845–864).  `--device`
and `--algorithm` consume a value when one follows (`i + 1 < argc`);
without one they fall through to the unknown-option branch, which prints
usage and returns 1; `--help` prints usage and returns 0. -/
def parseArgs : List String → CliOpts → ParseOut
  | [], o => .opts o
  | "--device" :: v :: rest, o => parseArgs rest { o with device := some v }
  | "--algorithm" :: v :: rest, o =>
    parseArgs rest { o with algorithm := parse_algorithm v }
  | "--verify" :: rest, o => parseArgs rest { o with verify := true }
  | "--force" :: rest, o => parseArgs rest { o with force := true }
  | "--info" :: rest, o => parseArgs rest { o with info := true }
  | "--help" :: _, _ => .exit 0
  | _ :: _, _ => .exit 1

/-- Actions of the CLI that touch the target device: the
`diskutil unmountDisk` invocation and the `wipe_execute` call. -/
inductive MainEvent
  | unmountDisk
  | wipeRun
deriving DecidableEq, Repr

/-- The `main` of secure_wipe.c (lines 836–983) as a function of its
environment: the arguments after `argv[0]`, the effective uid, the
detected disk size, the confirmation line read from stdin (`none` models
`fgets` failing; C truncates it at the first newline), and the value
`wipe_execute` returns.  Produces the process exit code and the ordered
device-touching actions.  Checks, in source order: parse errors; missing
`--device`; non-root; `--info` (exits 0); missing/invalid `--algorithm`;
zero disk size; interactive confirmation unless `--force` (the typed line
must equal "YES"); then unmount, wipe, and `return ret`. -/
def secure_wipe_main (args : List String) (euid : Nat) (diskSize : Nat)
    (stdinLine : Option String) (wipeRet : Int) : Int × List MainEvent :=
  match parseArgs args initOpts with
  | .exit c => (c, [])
  | .opts o =>
    match o.device with
    | none => (1, [])
    | some _ =>
      if euid ≠ 0 then (1, [])
      else if o.info then (0, [])
      else if o.algorithm = .count then (1, [])
      else if diskSize = 0 then (1, [])
      else
        let confirmed :=
          o.force || match stdinLine with
            | none => false
            | some s => s.data.takeWhile (fun c => c != '\n') == "YES".data
        if confirmed then (wipeRet, [.unmountDisk, .wipeRun])
        else (1, [])

/-- Pass environment of a fault-free run: the seek succeeds, every `write`
transfers its full chunk, the CSPRNG never fails, and the progress
callback never fires an abort. -/
def allOkEnv : PassEnv :=
  ⟨true, fun _ => .ok, fun _ => true, fun _ => false, fun _ => false⟩

/-- Verify environment of a fault-free run whose reads deliver empty data
(adequate wherever no byte comparison is at stake). -/
def allOkReadEnv : VerifyEnv :=
  ⟨true, true, fun _ => .ok, fun _ => [], fun _ => false, fun _ => false⟩

/-- Engine environment of a fault-free run. -/
def allOkEngineEnv : EngineEnv :=
  ⟨fun _ => allOkEnv, fun _ => true, fun _ => allOkReadEnv⟩

/-- Pass environment whose very first `write` fails with a non-EINTR errno
(used to inject a pass failure). -/
def failFirstWriteEnv : PassEnv :=
  ⟨true, fun _ => .fail, fun _ => true, fun _ => false, fun _ => false⟩

/-- Engine environment that injects the first pass failure at 0-based pass
index `k`: passes before `k` run fault-free, pass `k` fails on its first
`write`. -/
def failAtPassEnv (k : Nat) : EngineEnv :=
  ⟨fun i => if i < k then allOkEnv else failFirstWriteEnv,
   fun _ => true, fun _ => allOkReadEnv⟩

/-- Pass environment of an otherwise fault-free run in which the throttled
progress report fires exactly at iteration `j` and the callback answers
with an abort request there. -/
def abortAtEnv (j : Nat) : PassEnv :=
  ⟨true, fun _ => .ok, fun _ => true, fun i => i == j, fun i => i == j⟩

/-- Pass environment whose first `write` transfers a single byte (a short
write) while every later `write` transfers its full chunk. -/
def shortFirstEnv : PassEnv :=
  ⟨true, fun i => if i = 0 then .short 1 else .ok, fun _ => true,
   fun _ => false, fun _ => false⟩

/-- The chunk sizes a fault-free pass loop issues for `r` remaining bytes
and buffer size `B`: full buffers, then the remainder. -/
def chunkSeq (B r : Nat) : List Nat :=
  if h : 0 < B ∧ 0 < r then
    (if r < B then r else B) :: chunkSeq B (r - (if r < B then r else B))
  else []
termination_by r
decreasing_by
  refine Nat.sub_lt h.2 ?_
  split
  case isTrue => exact h.2
  case isFalse => exact h.1

/-! ## Helper lemmas -/

theorem chunkSeq_zero (B : Nat) : chunkSeq B 0 = [] := by
  rw [chunkSeq]; simp

theorem chunkSeq_pos (B r : Nat) (hB : 0 < B) (hr : 0 < r) :
    chunkSeq B r =
      (if r < B then r else B) :: chunkSeq B (r - (if r < B then r else B)) := by
  rw [chunkSeq, dif_pos ⟨hB, hr⟩]

/-- For positive remaining size the fault-free chunk list is a run of full
buffers followed by the final partial (or full) chunk. -/
theorem chunkSeq_eq (B : Nat) (hB : 0 < B) :
    ∀ r, 0 < r → chunkSeq B r =
      List.replicate ((r - 1) / B) B ++ [if r % B = 0 then B else r % B] := by
  intro r
  induction r using Nat.strong_induction_on with
  | _ r ih =>
    intro hr
    rw [chunkSeq_pos B r hB hr]
    by_cases hrB : r < B
    · have h1 : (r - 1) / B = 0 := Nat.div_eq_of_lt (by omega)
      have h2 : r % B = r := Nat.mod_eq_of_lt hrB
      rw [if_pos hrB, Nat.sub_self, chunkSeq_zero, h1, h2, if_neg (by omega)]
      simp
    · push_neg at hrB
      rw [if_neg (by omega)]
      by_cases hEq : r - B = 0
      · have hrB2 : r = B := by omega
        subst hrB2
        have h1 : (r - 1) / r = 0 := Nat.div_eq_of_lt (by omega)
        simp [chunkSeq_zero, h1, Nat.mod_self]
      · have h1 : 0 < r - B := Nat.pos_of_ne_zero hEq
        rw [ih (r - B) (by omega) h1]
        have hmod : (r - B) % B = r % B := (Nat.mod_eq_sub_mod hrB).symm
        have hdiv : (r - 1) / B = (r - B - 1) / B + 1 := by
          have hle : B ≤ r - 1 := by omega
          have harg : r - 1 - B = r - B - 1 := by omega
          rw [Nat.div_eq_sub_div hB hle, harg]
        rw [hmod, hdiv, List.replicate_succ]
        simp

/-- Ceiling division, in the form the spec writes it. -/
theorem ceil_div_eq (N B : Nat) (hN : 0 < N) (hB : 0 < B) :
    (N + B - 1) / B = (N - 1) / B + 1 := by
  have h : N + B - 1 = (N - 1) + B := by omega
  rw [h, Nat.add_div_right _ hB]

/-- A fault-free run of the macOS write loop finishes the device, issues
the canonical chunk list, reports no error, and reaches the flush. -/
theorem macWriteLoop_allOk (passNum N B : Nat) (isRand : Bool) (pat : List Nat)
    (hB : 0 < B) (hfill : isRand = true ∨ pat.length ≠ 0) :
    ∀ fuel written idx chunks, written ≤ N → N - written < fuel →
      macWriteLoop allOkEnv passNum N B isRand pat fuel written idx chunks =
        ⟨N, chunks ++ chunkSeq B (N - written), none, true⟩ := by
  intro fuel
  induction fuel with
  | zero => intro written idx chunks _ h; omega
  | succ fuel ih =>
    intro written idx chunks hwle hfuel
    have hnofill : ¬(¬(isRand = true) ∧ pat.length = 0) := by
      rcases hfill with h | h <;> simp [h]
    by_cases hw : written < N
    · by_cases hc : written + B > N
      · have hrpos : 0 < N - written := by omega
        have hcall := ih (written + (N - written)) (idx + 1) (chunks ++ [N - written])
          (by omega) (by omega)
        simp only [allOkEnv] at hcall
        simp only [macWriteLoop, allOkEnv]
        rw [if_pos hw]
        rw [if_pos hc]
        rw [if_neg (by simp), if_neg hnofill, if_neg (by simp)]
        rw [hcall]
        rw [chunkSeq_pos B (N - written) hB hrpos, if_pos (by omega)]
        have harith : written + (N - written) = N := by omega
        rw [harith]
        simp [Nat.sub_self, chunkSeq_zero]
      · have hrpos : 0 < N - written := by omega
        have hcall := ih (written + B) (idx + 1) (chunks ++ [B])
          (by omega) (by omega)
        simp only [allOkEnv] at hcall
        simp only [macWriteLoop, allOkEnv]
        rw [if_pos hw]
        rw [if_neg hc]
        rw [if_neg (by simp), if_neg hnofill, if_neg (by simp)]
        rw [hcall]
        rw [chunkSeq_pos B (N - written) hB hrpos, if_neg (by omega)]
        have harith : N - written - B = N - (written + B) := by omega
        rw [harith]
        simp
    · have hwn : written = N := by omega
      subst hwn
      simp [macWriteLoop, hw, chunkSeq_zero]

/-- A fault-free run of the wipe.c write loop behaves exactly like the
macOS one: it finishes the device with the canonical chunk list. -/
theorem directWriteLoop_allOk (passNum N B : Nat) (isRand : Bool) (pat : List Nat)
    (hB : 0 < B) :
    ∀ fuel written idx chunks, written ≤ N → N - written < fuel →
      directWriteLoop allOkEnv passNum N B isRand pat fuel written idx chunks =
        ⟨N, chunks ++ chunkSeq B (N - written), none, true⟩ := by
  intro fuel
  induction fuel with
  | zero => intro written idx chunks _ h; omega
  | succ fuel ih =>
    intro written idx chunks hwle hfuel
    by_cases hw : written < N
    · by_cases hc : written + B > N
      · have hrpos : 0 < N - written := by omega
        have hcall := ih (written + (N - written)) (idx + 1) (chunks ++ [N - written])
          (by omega) (by omega)
        simp only [allOkEnv] at hcall
        simp only [directWriteLoop, allOkEnv]
        rw [if_pos hw]
        rw [if_pos hc]
        rw [if_neg (by simp)]
        rw [hcall]
        rw [chunkSeq_pos B (N - written) hB hrpos, if_pos (by omega)]
        have harith : written + (N - written) = N := by omega
        rw [harith]
        simp [Nat.sub_self, chunkSeq_zero]
      · have hrpos : 0 < N - written := by omega
        have hcall := ih (written + B) (idx + 1) (chunks ++ [B])
          (by omega) (by omega)
        simp only [allOkEnv] at hcall
        simp only [directWriteLoop, allOkEnv]
        rw [if_pos hw]
        rw [if_neg hc]
        rw [if_neg (by simp)]
        rw [hcall]
        rw [chunkSeq_pos B (N - written) hB hrpos, if_neg (by omega)]
        have harith : N - written - B = N - (written + B) := by omega
        rw [harith]
        simp
    · have hwn : written = N := by omega
      subst hwn
      simp [directWriteLoop, hw, chunkSeq_zero]

/-- Running the macOS write loop over a clean prefix of `d` full-buffer
iterations (writes succeed, CSPRNG succeeds, no abort request) advances
the state from iteration `s` to iteration `j = s + d`. -/
theorem macWriteLoop_shift (env : PassEnv) (passNum N B : Nat) (isRand : Bool)
    (pat : List Nat) (hB : 0 < B) (hfill : isRand = true ∨ pat.length ≠ 0)
    (j : Nat) (hj : j * B ≤ N) :
    ∀ d s, s + d = j →
      (∀ i, s ≤ i → i < j → env.write i = .ok) →
      (∀ i, s ≤ i → i < j → env.randomOk i = true) →
      (∀ i, s ≤ i → i < j → ¬(env.report i = true ∧ env.stop i = true)) →
      ∀ fuel chunks,
        macWriteLoop env passNum N B isRand pat (fuel + d) (s * B) s chunks =
          macWriteLoop env passNum N B isRand pat fuel (j * B) j
            (chunks ++ List.replicate d B) := by
  intro d
  induction d with
  | zero =>
    intro s hs _ _ _ fuel chunks
    have hsj : s = j := by omega
    subst hsj
    simp
  | succ d ih =>
    intro s hs hw hr hstop fuel chunks
    have hsj : s < j := by omega
    have hlt : s * B + B ≤ N := by
      have h1 : (s + 1) * B ≤ j * B := Nat.mul_le_mul_right B (by omega)
      have h2 : s * B + B = (s + 1) * B := by ring
      omega
    have hwlt : s * B < N := by omega
    have hfe : fuel + (d + 1) = (fuel + d) + 1 := by omega
    have hnofill : ¬(¬(isRand = true) ∧ pat.length = 0) := by
      rcases hfill with h | h <;> simp [h]
    rw [hfe]
    simp only [macWriteLoop]
    rw [if_pos hwlt]
    rw [if_neg (by omega : ¬(s * B + B > N))]
    rw [if_neg (fun h => h.2 (hr s le_rfl hsj)), if_neg hnofill]
    simp only [hw s le_rfl hsj]
    rw [if_neg (hstop s le_rfl hsj)]
    have harith : s * B + B = (s + 1) * B := by ring
    rw [harith]
    have hrec := ih (s + 1) (by omega)
      (fun i h1 h2 => hw i (by omega) h2)
      (fun i h1 h2 => hr i (by omega) h2)
      (fun i h1 h2 => hstop i (by omega) h2)
      fuel (chunks ++ [B])
    rw [hrec]
    congr 1
    simp [List.replicate_succ]

/-! ## Claim theorems -/

/-- C2: a single deterministic (pattern) write pass over a device of `N`
bytes with buffer size `B`, starting at offset 0 on a fault-free channel,
writes exactly `N` bytes, in `ceil(N/B)` chunks of which all but the last
equal `B` while the last equals `N mod B` (or `B` when `B` divides `N`),
and reaches the physical-media flush after the last chunk — in both the
macOS executor `do_write_pass` and the unified executor `do_direct_pass`. -/
theorem C2_deterministic_pass_chunking (passNum N B : Nat) (pat : List Nat)
    (hN : 0 < N) (hB : 0 < B) (hpat : pat ≠ []) :
    (do_write_pass allOkEnv passNum N B false pat (N + 1) =
      ⟨N, chunkSeq B N, none, true⟩) ∧
    (do_direct_pass allOkEnv passNum N B false pat (N + 1) =
      ⟨N, chunkSeq B N, none, true⟩) ∧
    (chunkSeq B N).length = (N + B - 1) / B ∧
    (∀ c ∈ (chunkSeq B N).dropLast, c = B) ∧
    (chunkSeq B N).getLast? = some (if N % B = 0 then B else N % B) := by
  have hlen : pat.length ≠ 0 := fun h => hpat (List.length_eq_zero.mp h)
  have hkey := chunkSeq_eq B hB N hN
  refine ⟨?_, ?_, ?_, ?_, ?_⟩
  · have h1 := macWriteLoop_allOk passNum N B false pat hB (Or.inr hlen)
      (N + 1) 0 0 [] (by omega) (by omega)
    simp only [allOkEnv] at h1
    simp [do_write_pass, allOkEnv, h1]
  · have h1 := directWriteLoop_allOk passNum N B false pat hB
      (N + 1) 0 0 [] (by omega) (by omega)
    simp only [allOkEnv] at h1
    simp [do_direct_pass, allOkEnv, hlen, h1]
  · rw [hkey, ceil_div_eq N B hN hB]
    simp
  · rw [hkey, List.dropLast_concat]
    intro c hc
    exact List.eq_of_mem_replicate hc
  · rw [hkey, List.getLast?_concat]

/-- Witness for C2 at `N = 5`, `B = 2`, pattern `[0x00]`. -/
theorem C2_deterministic_pass_chunking_witness :
    do_write_pass allOkEnv 1 5 2 false [0] 6 = ⟨5, chunkSeq 2 5, none, true⟩ :=
  (C2_deterministic_pass_chunking 1 5 2 [0] (by decide) (by decide) (by decide)).1

/-- C3: when the progress callback, invoked after `K = (j+1)·B` bytes of a
pass have been written (`0 < K < N`), returns a non-zero value, the macOS
executor stops the pass there — exactly `j + 1` chunks are written, the
remaining bytes are not — and reports the user-abort error, a constructor
distinct from the write-error and short-write errors. -/
theorem C3_abort_stops_pass (passNum N B j : Nat) (isRand : Bool) (pat : List Nat)
    (hB : 0 < B) (hfill : isRand = true ∨ pat.length ≠ 0)
    (hK : (j + 1) * B < N) :
    do_write_pass (abortAtEnv j) passNum N B isRand pat (N + 1) =
      ⟨(j + 1) * B, List.replicate (j + 1) B, some (.userAborted passNum), false⟩ ∧
    0 < (j + 1) * B ∧ (j + 1) * B < N ∧
    (∀ p o, (WipeErr.userAborted passNum) ≠ .writeError p o ∧
            (WipeErr.userAborted passNum) ≠ .shortWrite p o) := by
  have hmul : j * B + B = (j + 1) * B := by ring
  have hj : j * B ≤ N := by omega
  have hjB : j + 1 ≤ (j + 1) * B := Nat.le_mul_of_pos_right _ hB
  have hjN : j < N := by omega
  have hnofill : ¬(¬(isRand = true) ∧ pat.length = 0) := by
    rcases hfill with h | h <;> simp [h]
  refine ⟨?_, by omega, by omega, fun p o => by simp⟩
  have hshift := macWriteLoop_shift (abortAtEnv j) passNum N B isRand pat hB hfill
    j hj j 0 (by omega)
    (fun i _ _ => rfl) (fun i _ _ => rfl)
    (fun i _ hij => by
      simp only [abortAtEnv, beq_iff_eq]
      intro h
      omega)
    (N + 1 - j) []
  have hfuel : N + 1 - j + j = N + 1 := by omega
  rw [hfuel] at hshift
  simp only [Nat.zero_mul, List.nil_append] at hshift
  have hseek : (abortAtEnv j).seekOk = true := rfl
  simp only [do_write_pass, hseek, if_true]
  rw [hshift]
  obtain ⟨f, hf⟩ : ∃ f, N + 1 - j = f + 1 := ⟨N - j, by omega⟩
  rw [hf]
  simp only [macWriteLoop]
  rw [if_pos (show j * B < N by omega)]
  rw [if_neg (show ¬(j * B + B > N) by omega)]
  rw [if_neg (fun h => h.2 rfl), if_neg hnofill]
  have hwj : (abortAtEnv j).write j = .ok := rfl
  simp only [hwj]
  rw [if_pos ⟨by simp [abortAtEnv], by simp [abortAtEnv]⟩]
  rw [hmul, List.replicate_succ']

/-- Witness for C3: abort at the second progress report (`j = 1`) of a
zero pass over 8 bytes with buffer size 2. -/
theorem C3_abort_stops_pass_witness :
    do_write_pass (abortAtEnv 1) 1 8 2 false [0] 9 =
      ⟨4, List.replicate 2 2, some (.userAborted 1), false⟩ :=
  (C3_abort_stops_pass 1 8 2 1 false [0] (by decide) (by decide) (by decide)).1

/-- Running the wipe.c write loop over a clean prefix of `d` full-buffer
iterations advances the state from iteration `s` to `j = s + d`. -/
theorem directWriteLoop_shift (env : PassEnv) (passNum N B : Nat) (isRand : Bool)
    (pat : List Nat) (hB : 0 < B) (j : Nat) (hj : j * B ≤ N) :
    ∀ d s, s + d = j →
      (∀ i, s ≤ i → i < j → env.write i = .ok) →
      (∀ i, s ≤ i → i < j → env.randomOk i = true) →
      ∀ fuel chunks,
        directWriteLoop env passNum N B isRand pat (fuel + d) (s * B) s chunks =
          directWriteLoop env passNum N B isRand pat fuel (j * B) j
            (chunks ++ List.replicate d B) := by
  intro d
  induction d with
  | zero =>
    intro s hs _ _ fuel chunks
    have hsj : s = j := by omega
    subst hsj
    simp
  | succ d ih =>
    intro s hs hw hr fuel chunks
    have hsj : s < j := by omega
    have hlt : s * B + B ≤ N := by
      have h1 : (s + 1) * B ≤ j * B := Nat.mul_le_mul_right B (by omega)
      have h2 : s * B + B = (s + 1) * B := by ring
      omega
    have hwlt : s * B < N := by omega
    have hfe : fuel + (d + 1) = (fuel + d) + 1 := by omega
    rw [hfe]
    simp only [directWriteLoop]
    rw [if_pos hwlt]
    rw [if_neg (by omega : ¬(s * B + B > N))]
    rw [if_neg (fun h => h.2 (hr s le_rfl hsj))]
    simp only [hw s le_rfl hsj]
    have harith : s * B + B = (s + 1) * B := by ring
    rw [harith]
    have hrec := ih (s + 1) (by omega)
      (fun i h1 h2 => hw i (by omega) h2)
      (fun i h1 h2 => hr i (by omega) h2)
      fuel (chunks ++ [B])
    rw [hrec]
    congr 1
    simp [List.replicate_succ]

/-- The wipe.c write loop never reports a short write, whatever the channel
does: no branch of it constructs the short-write error. -/
theorem directWriteLoop_no_shortWrite (env : PassEnv) (passNum N B : Nat)
    (isRand : Bool) (pat : List Nat) :
    ∀ fuel written idx chunks q o,
      (directWriteLoop env passNum N B isRand pat fuel written idx chunks).err ≠
        some (.shortWrite q o) := by
  intro fuel
  induction fuel with
  | zero => intro written idx chunks q o; simp [directWriteLoop]
  | succ fuel ih =>
    intro written idx chunks q o
    simp only [directWriteLoop]
    by_cases hw : written < N
    · rw [if_pos hw]
      by_cases hfl : isRand = true ∧ ¬(env.randomOk idx = true)
      · rw [if_pos hfl]; simp
      · rw [if_neg hfl]
        cases hwr : env.write idx with
        | ok => simp only [hwr]; exact ih _ _ _ q o
        | short n => simp only [hwr]; exact ih _ _ _ q o
        | intr => simp only [hwr]; exact ih _ _ _ q o
        | fail => simp only [hwr]; simp
    · rw [if_neg hw]; simp

/-- CORRECTED C4 (the claim as stated fails on wipe.c, see the
counterexample): in the macOS executor every seek failure, write error and
short write aborts the pass immediately with a structured error — seek
failures carry the pass number (they occur at offset 0, before any write),
write errors and short writes the pass number and the byte offset — and in
the wipe.c executor seek failures and write errors abort identically, but a
short write is never detected or reported: no run of its loop can produce
the short-write error. -/
theorem C4_failure_aborts_pass_amended :
    (∀ (env : PassEnv) (passNum N B : Nat) (isRand : Bool) (pat : List Nat) (fuel : Nat),
      env.seekOk = false →
      do_write_pass env passNum N B isRand pat fuel =
        ⟨0, [], some (.seekFailed passNum), false⟩) ∧
    (∀ (env : PassEnv) (passNum N B j : Nat) (isRand : Bool) (pat : List Nat),
      0 < B → (isRand = true ∨ pat.length ≠ 0) →
      env.seekOk = true → j * B < N →
      (∀ i, i < j → env.write i = .ok) →
      (∀ i, i ≤ j → env.randomOk i = true) →
      (∀ i, i < j → ¬(env.report i = true ∧ env.stop i = true)) →
      env.write j = .fail →
      do_write_pass env passNum N B isRand pat (N + 1) =
        ⟨j * B, List.replicate j B, some (.writeError passNum (j * B)), false⟩) ∧
    (∀ (env : PassEnv) (passNum N B j n : Nat) (isRand : Bool) (pat : List Nat),
      0 < B → (isRand = true ∨ pat.length ≠ 0) →
      env.seekOk = true → j * B < N →
      (∀ i, i < j → env.write i = .ok) →
      (∀ i, i ≤ j → env.randomOk i = true) →
      (∀ i, i < j → ¬(env.report i = true ∧ env.stop i = true)) →
      env.write j = .short n →
      n ≠ (if j * B + B > N then N - j * B else B) →
      do_write_pass env passNum N B isRand pat (N + 1) =
        ⟨j * B, List.replicate j B, some (.shortWrite passNum (j * B)), false⟩) ∧
    (∀ (env : PassEnv) (passNum N B : Nat) (isRand : Bool) (pat : List Nat) (fuel : Nat),
      (isRand = true ∨ pat.length ≠ 0) →
      env.seekOk = false →
      do_direct_pass env passNum N B isRand pat fuel =
        ⟨0, [], some (.seekFailed passNum), false⟩) ∧
    (∀ (env : PassEnv) (passNum N B j : Nat) (isRand : Bool) (pat : List Nat),
      0 < B → (isRand = true ∨ pat.length ≠ 0) →
      env.seekOk = true → j * B < N →
      (∀ i, i < j → env.write i = .ok) →
      (∀ i, i ≤ j → env.randomOk i = true) →
      env.write j = .fail →
      do_direct_pass env passNum N B isRand pat (N + 1) =
        ⟨j * B, List.replicate j B, some (.writeError passNum (j * B)), false⟩) ∧
    (∀ (env : PassEnv) (passNum N B : Nat) (isRand : Bool) (pat : List Nat)
      (fuel q o : Nat),
      (do_direct_pass env passNum N B isRand pat fuel).err ≠
        some (.shortWrite q o)) := by
  refine ⟨?_, ?_, ?_, ?_, ?_, ?_⟩
  · intro env passNum N B isRand pat fuel h
    simp [do_write_pass, h]
  · intro env passNum N B j isRand pat hB hfill hseek hjN hok hrand hstop hfail
    have hnofill : ¬(¬(isRand = true) ∧ pat.length = 0) := by
      rcases hfill with h | h <;> simp [h]
    have hjle : j ≤ j * B := Nat.le_mul_of_pos_right _ hB
    have hshift := macWriteLoop_shift env passNum N B isRand pat hB hfill
      j (by omega) j 0 (by omega)
      (fun i _ h2 => hok i h2) (fun i _ h2 => hrand i (by omega)) (fun i _ h2 => hstop i h2)
      (N + 1 - j) []
    have hfuel : N + 1 - j + j = N + 1 := by omega
    rw [hfuel] at hshift
    simp only [Nat.zero_mul, List.nil_append] at hshift
    simp only [do_write_pass, hseek, if_true]
    rw [hshift]
    obtain ⟨f, hf⟩ : ∃ f, N + 1 - j = f + 1 := ⟨N - j, by omega⟩
    rw [hf]
    simp only [macWriteLoop]
    rw [if_pos hjN]
    rw [if_neg (fun h => h.2 (hrand j le_rfl)), if_neg hnofill]
    simp only [hfail]
  · intro env passNum N B j n isRand pat hB hfill hseek hjN hok hrand hstop hshort hne
    have hnofill : ¬(¬(isRand = true) ∧ pat.length = 0) := by
      rcases hfill with h | h <;> simp [h]
    have hjle : j ≤ j * B := Nat.le_mul_of_pos_right _ hB
    have hshift := macWriteLoop_shift env passNum N B isRand pat hB hfill
      j (by omega) j 0 (by omega)
      (fun i _ h2 => hok i h2) (fun i _ h2 => hrand i (by omega)) (fun i _ h2 => hstop i h2)
      (N + 1 - j) []
    have hfuel : N + 1 - j + j = N + 1 := by omega
    rw [hfuel] at hshift
    simp only [Nat.zero_mul, List.nil_append] at hshift
    simp only [do_write_pass, hseek, if_true]
    rw [hshift]
    obtain ⟨f, hf⟩ : ∃ f, N + 1 - j = f + 1 := ⟨N - j, by omega⟩
    rw [hf]
    simp only [macWriteLoop]
    rw [if_pos hjN]
    rw [if_neg (fun h => h.2 (hrand j le_rfl)), if_neg hnofill]
    simp only [hshort]
    rw [if_neg hne]
  · intro env passNum N B isRand pat fuel hfill h
    have hnofill : ¬(¬(isRand = true) ∧ pat.length = 0) := by
      rcases hfill with h | h <;> simp [h]
    simp only [do_direct_pass]
    rw [if_neg hnofill, h]
    simp
  · intro env passNum N B j isRand pat hB hfill hseek hjN hok hrand hfail
    have hnofill : ¬(¬(isRand = true) ∧ pat.length = 0) := by
      rcases hfill with h | h <;> simp [h]
    have hjle : j ≤ j * B := Nat.le_mul_of_pos_right _ hB
    have hshift := directWriteLoop_shift env passNum N B isRand pat hB
      j (by omega) j 0 (by omega)
      (fun i _ h2 => hok i h2) (fun i _ h2 => hrand i (by omega))
      (N + 1 - j) []
    have hfuel : N + 1 - j + j = N + 1 := by omega
    rw [hfuel] at hshift
    simp only [Nat.zero_mul, List.nil_append] at hshift
    simp only [do_direct_pass]
    rw [if_neg hnofill, hseek]
    rw [if_pos rfl]
    rw [hshift]
    obtain ⟨f, hf⟩ : ∃ f, N + 1 - j = f + 1 := ⟨N - j, by omega⟩
    rw [hf]
    simp only [directWriteLoop]
    rw [if_pos hjN]
    rw [if_neg (fun h => h.2 (hrand j le_rfl))]
    simp only [hfail]
  · intro env passNum N B isRand pat fuel q o
    simp only [do_direct_pass]
    split
    · simp
    · split
      · exact directWriteLoop_no_shortWrite env passNum N B isRand pat fuel 0 0 [] q o
      · simp

/-- Counterexample to C4 as stated: the wipe.c executor, run over a 4-byte
device with buffer size 2 on a channel whose first `write` transfers only
1 byte (a short write with no OS error), does not abort — it goes on to
write two further chunks, finishes the pass with no error, and reaches the
flush. -/
theorem C4_failure_aborts_pass_counterexample :
    do_direct_pass shortFirstEnv 1 4 2 false [0] 5 =
      ⟨4, [1, 2, 1], none, true⟩ ∧
    (do_direct_pass shortFirstEnv 1 4 2 false [0] 5).err = none ∧
    (do_direct_pass shortFirstEnv 1 4 2 false [0] 5).chunks.length = 3 := by
  refine ⟨?_, ?_, ?_⟩ <;> decide

/-- Witness for the amended C4: a first-write failure on a 4-byte device
is reported as the write error of pass 3 at offset 0. -/
theorem C4_failure_aborts_pass_amended_witness :
    do_write_pass failFirstWriteEnv 3 4 2 false [0] 5 =
      ⟨0, [], some (.writeError 3 0), false⟩ :=
  C4_failure_aborts_pass_amended.2.1 failFirstWriteEnv 3 4 2 0 false [0]
    (by decide) (Or.inr (by decide)) rfl (by decide)
    (fun i hi => absurd hi (by omega))
    (fun i hi => rfl)
    (fun i hi => absurd hi (by omega))
    rfl

/-- Counterexample to C1 as stated.  The claim numbers the table with the
spec's ranges: passes 27–29 the three cyclic rotations of
{0x92,0x49,0x24}, passes 30–31 the rotations of {0x6D,0xB6,0xDB}, passes
32–35 random.  In the source table, pass 29 (index 28) is the non-random
pattern {0x6D,0xB6,0xDB}, which is none of the rotations of
{0x92,0x49,0x24}; and in the macOS table pass 35 (index 34) is not
random. -/
theorem C1_gutmann_table_counterexample :
    (gutmann_passes.getD 28 GP_RAND).is_random = false ∧
    (gutmann_passes.getD 28 GP_RAND).pattern = [0x6D, 0xB6, 0xDB] ∧
    (∀ rot ∈ [[0x92, 0x49, 0x24], [0x49, 0x24, 0x92], [0x24, 0x92, 0x49]],
      (gutmann_passes.getD 28 GP_RAND).pattern ≠ rot) ∧
    (macos_gutmann_passes.getD 34 GP_RAND).is_random = false := by
  decide

/-- CORRECTED C1: the wipe.c Gutmann table is exactly the published
35-entry sequence with the correct numbering — passes 1–4 random, pass 5 =
0x55, pass 6 = 0xAA, passes 7–9 the rotations of {0x92,0x49,0x24}, passes
10–25 the sweep 0x00,0x11,…,0xFF in order, passes 26–28 the rotations of
{0x92,0x49,0x24} again, passes 29–31 the rotations of {0x6D,0xB6,0xDB},
passes 32–35 random — while the macOS table agrees with it on passes 1–34
but its pass 35 is the zero-initialized entry
`{is_random = false, pattern_len = 0}` instead of a random pass. -/
theorem C1_gutmann_table_amended :
    gutmann_passes = publishedGutmannTable ∧
    macos_gutmann_passes = publishedGutmannTable.take 34 ++ [⟨false, []⟩] := by
  decide

/-- C8 (code bug): the wipe.c Gutmann table satisfies the PassSpec
invariant, but the macOS one does not — its 35th entry is the
zero-initialized `{is_random = false, pattern_len = 0}` — and the macOS
engine does reach `fill_pattern` with the empty pattern: a fault-free
Gutmann run completes 34 passes and stops at pass 35 with the
undefined-fill marker (`pattern[i % 0]` is a division by zero in C). -/
theorem C8_passspec_invariant_violated :
    (∀ gp ∈ gutmann_passes, passSpecInvariant gp) ∧
    macos_gutmann_passes.getD 34 GP_RAND = ⟨false, []⟩ ∧
    ¬(∀ gp ∈ macos_gutmann_passes, passSpecInvariant gp) ∧
    fill_pattern 1 [] = none ∧
    (wipe_execute .gutmann false 1 1 true true allOkEngineEnv 2).err =
      some (.undefinedFill 35) ∧
    (wipe_execute .gutmann false 1 1 true true allOkEngineEnv 2).passes_completed = 34 ∧
    (wipe_execute .gutmann false 1 1 true true allOkEngineEnv 2).completed = false := by
  refine ⟨by decide, by decide, by decide, by decide, ?_, ?_, ?_⟩ <;> decide

/-- A fault-free write pass completes the whole device. -/
theorem do_write_pass_allOk (passNum N B : Nat) (isRand : Bool) (pat : List Nat)
    (hB : 0 < B) (hfill : isRand = true ∨ pat.length ≠ 0) :
    do_write_pass allOkEnv passNum N B isRand pat (N + 1) =
      ⟨N, chunkSeq B N, none, true⟩ := by
  have h1 := macWriteLoop_allOk passNum N B isRand pat hB hfill
    (N + 1) 0 0 [] (by omega) (by omega)
  simp only [allOkEnv] at h1
  simp [do_write_pass, allOkEnv, h1]

/-- A write pass whose first `write` fails reports the write error of that
pass at offset 0 and writes nothing. -/
theorem do_write_pass_failFirst (passNum N B : Nat) (isRand : Bool) (pat : List Nat)
    (hN : 0 < N) (hfill : isRand = true ∨ pat.length ≠ 0) :
    do_write_pass failFirstWriteEnv passNum N B isRand pat (N + 1) =
      ⟨0, [], some (.writeError passNum 0), false⟩ := by
  have hnofill : ¬(¬(isRand = true) ∧ pat.length = 0) := by
    rcases hfill with h | h <;> simp [h]
  have hseek : failFirstWriteEnv.seekOk = true := rfl
  simp only [do_write_pass, hseek, if_true]
  simp only [macWriteLoop]
  rw [if_pos hN]
  rw [if_neg (fun h => h.2 rfl), if_neg hnofill]
  have hwr : failFirstWriteEnv.write 0 = .fail := rfl
  simp only [hwr]

/-- Running the engine pass loop with fault-free passes before index `k`
(relative to start index `p`), a first-write failure at index `k`, and
verification disabled on every entry, completes exactly `k` further passes
and stops with the write error of pass `p + k + 1` at offset 0. -/
theorem macRunPasses_failAt (N B : Nat) (hN : 0 < N) (hB : 0 < B) (eenv : EngineEnv) :
    ∀ (k : Nat) (l : List EnginePass) (p : Nat) (st : EngineState),
      k < l.length →
      (∀ ep ∈ l, ep.wantVerify = false) →
      (∀ i, i < k → eenv.wenvs (p + i) = allOkEnv) →
      eenv.wenvs (p + k) = failFirstWriteEnv →
      (∀ i, i ≤ k → (l.getD i ⟨true, [], false⟩).isRand = true ∨
        (l.getD i ⟨true, [], false⟩).pat.length ≠ 0) →
      (macRunPasses eenv N B (N + 1) l p st).passes_completed = st.passes_completed + k ∧
      (macRunPasses eenv N B (N + 1) l p st).err = some (.writeError (p + k + 1) 0) := by
  intro k
  induction k with
  | zero =>
    intro l p st hk hv hpre hfail hwf
    cases l with
    | nil => simp at hk
    | cons ep rest =>
      have hep : ep.isRand = true ∨ ep.pat.length ≠ 0 := by
        have := hwf 0 (by omega)
        simpa using this
      simp only [Nat.add_zero] at hfail
      have hw := do_write_pass_failFirst (p + 1) N B ep.isRand ep.pat hN hep
      simp only [macRunPasses]
      rw [hfail, hw]
      simp
  | succ k ih =>
    intro l p st hk hv hpre hfail hwf
    cases l with
    | nil => simp at hk
    | cons ep rest =>
      have hok : eenv.wenvs p = allOkEnv := by
        have := hpre 0 (by omega)
        simpa using this
      have hep : ep.isRand = true ∨ ep.pat.length ≠ 0 := by
        have := hwf 0 (by omega)
        simpa using this
      have hw := do_write_pass_allOk (p + 1) N B ep.isRand ep.pat hB hep
      have hvep : ep.wantVerify = false := hv ep (by simp)
      simp only [macRunPasses]
      rw [hok, hw]
      simp only [hvep, Bool.false_eq_true, if_false]
      have hres := ih rest (p + 1)
        { st with
          passes_completed := st.passes_completed + 1
          total_bytes_written := st.total_bytes_written + N
          writeCalls := st.writeCalls ++
            [(p + 1, ep.isRand, ⟨N, chunkSeq B N, none, true⟩)] }
        (by simpa using hk)
        (fun ep' h' => hv ep' (List.mem_cons_of_mem ep h'))
        (fun i hi => by
          have := hpre (i + 1) (by omega)
          simpa [Nat.add_assoc, Nat.add_comm 1 i] using this)
        (by
          have h' : p + (k + 1) = p + 1 + k := by omega
          rw [h'] at hfail
          exact hfail)
        (fun i hi => by
          have := hwf (i + 1) (by omega)
          simpa [List.getD_cons_succ] using this)
      refine ⟨?_, ?_⟩
      · rw [hres.1]
        simp
        omega
      · rw [hres.2]
        have h' : p + 1 + k + 1 = p + (k + 1) + 1 := by omega
        rw [h']

/-- Bridge from `wipe_execute` to the pass-loop lemma, for a known plan. -/
theorem wipe_execute_failAt (alg : MacAlg) (plan : List EnginePass)
    (hplan : macPassPlan alg false = some plan)
    (k N B : Nat) (eenv : EngineEnv) (hN : 0 < N) (hB : 0 < B)
    (hk : k < plan.length)
    (hv : ∀ ep ∈ plan, ep.wantVerify = false)
    (hpre : ∀ i, i < k → eenv.wenvs i = allOkEnv)
    (hfail : eenv.wenvs k = failFirstWriteEnv)
    (hwf : ∀ i, i ≤ k → (plan.getD i ⟨true, [], false⟩).isRand = true ∨
      (plan.getD i ⟨true, [], false⟩).pat.length ≠ 0) :
    (wipe_execute alg false N B true true eenv (N + 1)).passes_completed = k ∧
    (wipe_execute alg false N B true true eenv (N + 1)).completed = false ∧
    (wipe_execute alg false N B true true eenv (N + 1)).err =
      some (.writeError (k + 1) 0) ∧
    (wipe_execute alg false N B true true eenv (N + 1)).ret = -1 := by
  have hrun := macRunPasses_failAt N B hN hB eenv k plan 0 ⟨0, 0, 0, [], [], none⟩
    hk hv (fun i hi => by simpa using hpre i hi) (by simpa using hfail) hwf
  simp only [wipe_execute]
  rw [if_neg (by omega)]
  rw [if_neg (by simp), if_neg (by simp)]
  rw [hplan]
  simp [hrun.1, hrun.2]

/-- C5: for every implemented algorithm and every 0-based pass index `k` at
which the first pass failure is injected (all earlier passes fault-free,
pass `k + 1` failing on its first write), the macOS engine aborts the run
at that pass but still reports partial completion: `passes_completed = k`,
`completed = false`, and the write error of pass `k + 1`; in particular
Gutmann35 with the failure on pass 17 yields `passes_completed = 16` and
an error identifying pass 17 (see the witness). -/
theorem C5_first_failure_partial_result (alg : MacAlg) (k N B : Nat)
    (eenv : EngineEnv) (halg : alg ≠ .count) (hN : 0 < N) (hB : 0 < B)
    (hk : k < wipe_algorithm_passes alg)
    (hpre : ∀ i, i < k → eenv.wenvs i = allOkEnv)
    (hfail : eenv.wenvs k = failFirstWriteEnv)
    (hwf : ∀ i, i ≤ k →
      (((macPassPlan alg false).getD []).getD i ⟨true, [], false⟩).isRand = true ∨
      (((macPassPlan alg false).getD []).getD i ⟨true, [], false⟩).pat.length ≠ 0) :
    (wipe_execute alg false N B true true eenv (N + 1)).passes_completed = k ∧
    (wipe_execute alg false N B true true eenv (N + 1)).completed = false ∧
    (wipe_execute alg false N B true true eenv (N + 1)).err =
      some (.writeError (k + 1) 0) ∧
    (wipe_execute alg false N B true true eenv (N + 1)).ret = -1 := by
  cases alg with
  | count => exact absurd rfl halg
  | gutmann =>
    refine wipe_execute_failAt .gutmann _ rfl k N B eenv hN hB ?_ (by decide)
      hpre hfail ?_
    · simp only [List.length_map]
      have h35 : macos_gutmann_passes.length = 35 := by decide
      rw [h35]
      exact hk
    · intro i hi
      simpa [macPassPlan] using hwf i hi
  | dod =>
    refine wipe_execute_failAt .dod _ rfl k N B eenv hN hB ?_ (by decide)
      hpre hfail ?_
    · simp only [List.length_map]
      have h7 : dod_passes.length = 7 := by decide
      rw [h7]
      exact hk
    · intro i hi
      simpa [macPassPlan] using hwf i hi
  | schneier =>
    refine wipe_execute_failAt .schneier _ rfl k N B eenv hN hB ?_ (by decide)
      hpre hfail ?_
    · simpa [wipe_algorithm_passes] using hk
    · intro i hi
      simpa [macPassPlan] using hwf i hi
  | random =>
    refine wipe_execute_failAt .random _ rfl k N B eenv hN hB ?_ (by decide)
      hpre hfail ?_
    · simpa [wipe_algorithm_passes] using hk
    · intro i hi
      simpa [macPassPlan] using hwf i hi
  | zero =>
    refine wipe_execute_failAt .zero _ rfl k N B eenv hN hB ?_ (by decide)
      hpre hfail ?_
    · simpa [wipe_algorithm_passes] using hk
    · intro i hi
      simpa [macPassPlan] using hwf i hi

/-- Witness for C5: the spec's scenario — Gutmann35 with the write failure
injected on pass 17 yields `passes_completed = 16`, `completed = false`,
and `WriteError{pass: 17, offset: 0}`. -/
theorem C5_first_failure_partial_result_witness :
    (wipe_execute .gutmann false 1 1 true true (failAtPassEnv 16) 2).passes_completed = 16 ∧
    (wipe_execute .gutmann false 1 1 true true (failAtPassEnv 16) 2).completed = false ∧
    (wipe_execute .gutmann false 1 1 true true (failAtPassEnv 16) 2).err =
      some (.writeError 17 0) := by
  have h := C5_first_failure_partial_result .gutmann 16 1 1 (failAtPassEnv 16)
    (by decide) (by decide) (by decide) (by decide)
    (fun i hi => by simp [failAtPassEnv, hi])
    (by simp [failAtPassEnv])
    (by decide)
  exact ⟨h.1, h.2.1, h.2.2.1⟩

/-- The macOS verify loop on a random pass never performs a byte
comparison and can never report a mismatch. -/
theorem macVerifyLoop_rand_no_compare (env : VerifyEnv) (passNum N B : Nat)
    (pat : List Nat) :
    ∀ fuel verified idx reads compares,
      (macVerifyLoop env passNum N B true pat fuel verified idx reads compares).compares =
        compares ∧
      (∀ q o,
        (macVerifyLoop env passNum N B true pat fuel verified idx reads compares).err ≠
          some (.verifyMismatch q o)) := by
  intro fuel
  induction fuel with
  | zero => intro verified idx reads compares; simp [macVerifyLoop]
  | succ fuel ih =>
    intro verified idx reads compares
    simp only [macVerifyLoop]
    by_cases hv : verified < N
    · rw [if_pos hv]
      cases hr : env.read idx with
      | fail => simp
      | intr => exact ih verified (idx + 1) reads compares
      | short n =>
        simp only []
        by_cases hn : n = (if verified + B > N then N - verified else B)
        · rw [if_pos hn, if_neg (by simp)]
          by_cases hrs : env.report idx = true ∧ env.stop idx = true
          · rw [if_pos hrs]; simp
          · rw [if_neg hrs]
            exact ih _ (idx + 1) _ compares
        · rw [if_neg hn]; simp
      | ok =>
        simp only []
        rw [if_neg (by simp)]
        by_cases hrs : env.report idx = true ∧ env.stop idx = true
        · rw [if_pos hrs]; simp
        · rw [if_neg hrs]
          exact ih _ (idx + 1) _ compares
    · rw [if_neg hv]; simp

/-- The `do_verify_pass` executor on a random pass: read-back only, zero
byte comparisons, and no mismatch error is possible. -/
theorem do_verify_pass_rand_no_compare (env : VerifyEnv) (passNum N B : Nat)
    (pat : List Nat) (fuel : Nat) :
    (do_verify_pass env passNum N B true pat fuel).compares = 0 ∧
    (∀ q o, (do_verify_pass env passNum N B true pat fuel).err ≠
      some (.verifyMismatch q o)) := by
  simp only [do_verify_pass]
  split
  · exact macVerifyLoop_rand_no_compare env passNum N B pat fuel 0 0 0 0
  · simp

/-- Invariant of the macOS engine pass loop: every verify invocation it
records satisfies `P`, provided `P` holds of the already-recorded ones and
of every invocation the loop can make on an entry whose guard requests
verification. -/
theorem macRunPasses_verify_inv (eenv : EngineEnv) (N B fuel : Nat)
    (P : Nat × Bool × VerifyTrace → Prop) :
    ∀ (l : List EnginePass) (p : Nat) (st : EngineState),
      (∀ x ∈ st.verifyCalls, P x) →
      (∀ ep ∈ l, ∀ q : Nat, ep.wantVerify = true →
        P (q + 1, ep.isRand,
           do_verify_pass (eenv.venvs q) (q + 1) N B ep.isRand ep.pat fuel)) →
      ∀ x ∈ (macRunPasses eenv N B fuel l p st).verifyCalls, P x := by
  intro l
  induction l with
  | nil =>
    intro p st hst _ x hx
    simpa [macRunPasses] using hst x hx
  | cons ep rest ih =>
    intro p st hst hl
    simp only [macRunPasses]
    cases hwt : (do_write_pass (eenv.wenvs p) (p + 1) N B ep.isRand ep.pat fuel).err with
    | some e =>
      intro x hx
      simp only at hx
      exact hst x hx
    | none =>
      by_cases hv : ep.wantVerify = true
      · rw [if_pos hv]
        by_cases ho : eenv.vopens p = true
        · rw [if_pos ho]
          cases hvt : (do_verify_pass (eenv.venvs p) (p + 1) N B ep.isRand ep.pat fuel).err with
          | some e =>
            intro x hx
            simp only [List.mem_append, List.mem_singleton] at hx
            rcases hx with hx | hx
            · exact hst x hx
            · subst hx
              exact hl ep (List.mem_cons_self ep rest) p hv
          | none =>
            refine ih (p + 1) _ ?_ (fun ep' h' => hl ep' (List.mem_cons_of_mem ep h'))
            intro x hx
            simp only [List.mem_append, List.mem_singleton] at hx
            rcases hx with hx | hx
            · exact hst x hx
            · subst hx
              exact hl ep (List.mem_cons_self ep rest) p hv
        · rw [if_neg ho]
          exact ih (p + 1) _ (fun x hx => hst x hx)
            (fun ep' h' => hl ep' (List.mem_cons_of_mem ep h'))
      · rw [if_neg hv]
        exact ih (p + 1) _ (fun x hx => hst x hx)
          (fun ep' h' => hl ep' (List.mem_cons_of_mem ep h'))

/-- Invariant of the wipe.c engine pass loop, analogous to
`macRunPasses_verify_inv` (here a failed read-only open is part of the
verify call itself). -/
theorem directRunPasses_verify_inv (eenv : EngineEnv) (N B fuel : Nat)
    (P : Nat × Bool × VerifyTrace → Prop) :
    ∀ (l : List EnginePass) (p : Nat) (st : DirectTrace),
      (∀ x ∈ st.verifyCalls, P x) →
      (∀ ep ∈ l, ∀ q : Nat, ep.wantVerify = true →
        P (q + 1, ep.isRand,
           do_direct_verify { eenv.venvs q with openOk := eenv.vopens q }
             (q + 1) N B ep.isRand ep.pat fuel)) →
      ∀ x ∈ (directRunPasses eenv N B fuel l p st).verifyCalls, P x := by
  intro l
  induction l with
  | nil =>
    intro p st hst _ x hx
    simpa [directRunPasses] using hst x hx
  | cons ep rest ih =>
    intro p st hst hl
    simp only [directRunPasses]
    cases hwt : (do_direct_pass (eenv.wenvs p) (p + 1) N B ep.isRand ep.pat fuel).err with
    | some e =>
      intro x hx
      simp only at hx
      exact hst x hx
    | none =>
      by_cases hv : ep.wantVerify = true
      · rw [if_pos hv]
        cases hvt : (do_direct_verify { eenv.venvs p with openOk := eenv.vopens p }
            (p + 1) N B ep.isRand ep.pat fuel).err with
        | some e =>
          intro x hx
          simp only [List.mem_append, List.mem_singleton] at hx
          rcases hx with hx | hx
          · exact hst x hx
          · subst hx
            exact hl ep (List.mem_cons_self ep rest) p hv
        | none =>
          refine ih (p + 1) _ ?_ (fun ep' h' => hl ep' (List.mem_cons_of_mem ep h'))
          intro x hx
          simp only [List.mem_append, List.mem_singleton] at hx
          rcases hx with hx | hx
          · exact hst x hx
          · subst hx
            exact hl ep (List.mem_cons_self ep rest) p hv
      · rw [if_neg hv]
        exact ih (p + 1) _ (fun x hx => hst x hx)
          (fun ep' h' => hl ep' (List.mem_cons_of_mem ep h'))

/-- Every verify invocation of a `wipe_execute` run satisfies `P`,
provided `P` holds of every invocation the plan can give rise to. -/
theorem wipe_execute_verifyCalls_inv (alg : MacAlg) (verify : Bool) (N B : Nat)
    (o a : Bool) (eenv : EngineEnv) (fuel : Nat) (P : Nat × Bool × VerifyTrace → Prop)
    (hP : ∀ plan, macPassPlan alg verify = some plan →
      ∀ ep ∈ plan, ∀ q : Nat, ep.wantVerify = true →
        P (q + 1, ep.isRand,
           do_verify_pass (eenv.venvs q) (q + 1) N B ep.isRand ep.pat fuel)) :
    ∀ x ∈ (wipe_execute alg verify N B o a eenv fuel).verifyCalls, P x := by
  simp only [wipe_execute]
  split
  · simp
  · split
    · simp
    · split
      · simp
      · cases hplan : macPassPlan alg verify with
        | none => simp
        | some plan =>
          exact macRunPasses_verify_inv eenv N B fuel P plan 0 _ (by simp)
            (hP plan hplan)

/-- Every verify invocation of a `vault_wipe_device_direct` run satisfies
`P`, provided `P` holds of every invocation the plan can give rise to. -/
theorem vault_wipe_device_direct_verifyCalls_inv (alg : VaultAlg) (verify : Bool)
    (N B : Nat) (o a : Bool) (eenv : EngineEnv) (fuel : Nat)
    (P : Nat × Bool × VerifyTrace → Prop)
    (hP : ∀ plan, directPassPlan alg verify = some plan →
      ∀ ep ∈ plan, ∀ q : Nat, ep.wantVerify = true →
        P (q + 1, ep.isRand,
           do_direct_verify { eenv.venvs q with openOk := eenv.vopens q }
             (q + 1) N B ep.isRand ep.pat fuel)) :
    ∀ x ∈ (vault_wipe_device_direct alg verify N B o a eenv fuel).verifyCalls, P x := by
  simp only [vault_wipe_device_direct]
  split
  · simp
  · split
    · simp
    · split
      · simp
      · cases hplan : directPassPlan alg verify with
        | none => simp
        | some plan =>
          exact directRunPasses_verify_inv eenv N B fuel P plan 0 _ (by simp)
            (hP plan hplan)

/-- With verification not requested, no entry of a macOS pass plan asks
for a verify pass. -/
theorem macPassPlan_noVerify (alg : MacAlg) (plan : List EnginePass)
    (h : macPassPlan alg false = some plan) : ∀ ep ∈ plan, ep.wantVerify = false := by
  cases alg <;> simp only [macPassPlan, Option.some.injEq] at h <;>
    first
      | (subst h; decide)
      | exact absurd h (by simp)

/-- With verification not requested, no entry of a wipe.c pass plan asks
for a verify pass. -/
theorem directPassPlan_noVerify (alg : VaultAlg) (plan : List EnginePass)
    (h : directPassPlan alg false = some plan) : ∀ ep ∈ plan, ep.wantVerify = false := by
  cases alg <;> simp only [directPassPlan, Option.some.injEq] at h <;>
    first
      | (subst h; decide)
      | exact absurd h (by simp)

/-- A wipe.c pass-plan entry whose guard requests verification is always a
deterministic (pattern) pass. -/
theorem directPassPlan_verify_deterministic (alg : VaultAlg) (verify : Bool)
    (plan : List EnginePass) (h : directPassPlan alg verify = some plan) :
    ∀ ep ∈ plan, ep.wantVerify = true → ep.isRand = false := by
  cases alg <;> simp only [directPassPlan, Option.some.injEq] at h
  case gutmann =>
    subst h
    intro ep hep hv
    obtain ⟨gp, _, rfl⟩ := List.mem_map.mp hep
    simp only [Bool.and_eq_true, Bool.not_eq_eq_eq_not, Bool.not_true] at hv
    exact hv.2
  case dod =>
    subst h
    intro ep hep hv
    obtain ⟨dp, _, rfl⟩ := List.mem_map.mp hep
    simp only [Bool.and_eq_true, Bool.not_eq_eq_eq_not, Bool.not_true] at hv
    exact hv.2
  case dodShort =>
    subst h
    intro ep hep hv
    have := List.eq_of_mem_replicate hep
    subst this
    simp at hv
  case random =>
    subst h
    intro ep hep hv
    simp only [List.mem_singleton] at hep
    subst hep
    simp at hv
  case zero =>
    subst h
    intro ep hep hv
    simp only [List.mem_singleton] at hep
    subst hep
    rfl
  case verifyOnly => exact absurd h (by simp)
  case count => exact absurd h (by simp)

/-- C6: byte-for-byte verification happens only when requested and only on
deterministic passes.  (1) With `verify` off, the macOS engine makes no
verify invocation at all; (2) any verify invocation it makes on a random
pass performs zero byte comparisons and cannot report a mismatch — it is
read-back only; (3) the verify executor itself, on a random pass, performs
zero comparisons for any channel behaviour; (4) with `verify` off the
wipe.c engine makes no verify invocation; (5) every verify invocation the
wipe.c engine ever makes is on a deterministic pass. -/
theorem C6_random_pass_verification :
    (∀ (alg : MacAlg) (N B : Nat) (o a : Bool) (eenv : EngineEnv) (fuel : Nat),
      (wipe_execute alg false N B o a eenv fuel).verifyCalls = []) ∧
    (∀ (alg : MacAlg) (verify : Bool) (N B : Nat) (o a : Bool) (eenv : EngineEnv)
      (fuel : Nat) (x : Nat × Bool × VerifyTrace),
      x ∈ (wipe_execute alg verify N B o a eenv fuel).verifyCalls →
      x.2.1 = true →
      x.2.2.compares = 0 ∧ ∀ q r, x.2.2.err ≠ some (.verifyMismatch q r)) ∧
    (∀ (env : VerifyEnv) (passNum N B : Nat) (pat : List Nat) (fuel : Nat),
      (do_verify_pass env passNum N B true pat fuel).compares = 0) ∧
    (∀ (alg : VaultAlg) (N B : Nat) (o a : Bool) (eenv : EngineEnv) (fuel : Nat),
      (vault_wipe_device_direct alg false N B o a eenv fuel).verifyCalls = []) ∧
    (∀ (alg : VaultAlg) (verify : Bool) (N B : Nat) (o a : Bool) (eenv : EngineEnv)
      (fuel : Nat) (x : Nat × Bool × VerifyTrace),
      x ∈ (vault_wipe_device_direct alg verify N B o a eenv fuel).verifyCalls →
      x.2.1 = false) := by
  refine ⟨?_, ?_, ?_, ?_, ?_⟩
  · intro alg N B o a eenv fuel
    have h := wipe_execute_verifyCalls_inv alg false N B o a eenv fuel (fun _ => False)
      (fun plan hplan ep hep q hv =>
        absurd hv (by simp [macPassPlan_noVerify alg plan hplan ep hep]))
    exact List.eq_nil_iff_forall_not_mem.mpr (fun x hx => h x hx)
  · intro alg verify N B o a eenv fuel x hx
    refine wipe_execute_verifyCalls_inv alg verify N B o a eenv fuel
      (fun y => y.2.1 = true → y.2.2.compares = 0 ∧
        ∀ q r, y.2.2.err ≠ some (.verifyMismatch q r)) ?_ x hx
    intro plan _ ep _ q hv hrand
    simp only at hrand
    rw [hrand]
    exact do_verify_pass_rand_no_compare (eenv.venvs q) (q + 1) N B ep.pat fuel
  · intro env passNum N B pat fuel
    exact (do_verify_pass_rand_no_compare env passNum N B pat fuel).1
  · intro alg N B o a eenv fuel
    have h := vault_wipe_device_direct_verifyCalls_inv alg false N B o a eenv fuel
      (fun _ => False)
      (fun plan hplan ep hep q hv =>
        absurd hv (by simp [directPassPlan_noVerify alg plan hplan ep hep]))
    exact List.eq_nil_iff_forall_not_mem.mpr (fun x hx => h x hx)
  · intro alg verify N B o a eenv fuel x hx
    refine vault_wipe_device_direct_verifyCalls_inv alg verify N B o a eenv fuel
      (fun y => y.2.1 = false) ?_ x hx
    intro plan hplan ep hep q hv
    simp only
    exact directPassPlan_verify_deterministic alg verify plan hplan ep hep hv

/-- Witness for C6: a fault-free unverified zero-fill run of the macOS
engine records no verify invocation. -/
theorem C6_random_pass_verification_witness :
    (wipe_execute .zero false 4 2 true true allOkEngineEnv 5).verifyCalls = [] :=
  C6_random_pass_verification.1 .zero 4 2 true true allOkEngineEnv 5

/-- C7: in the dead-man sequence, a failing primary engine invocation is
escalated exactly once, to a single-pass random, unverified direct-I/O
overwrite — the trace holds exactly two engine invocations when the
primary fails and exactly one when it succeeds — the fallback's result is
never surfaced (the trace does not depend on it), and every run ends with
sync followed by power-off. -/
theorem C7_deadman_fallback (e : Bool) (alg : VaultAlg) (v : Bool)
    (env : DeadmanEnv) :
    ((vault_deadman_trigger e alg v env).filter isWipeInvocation =
      if env.primaryRet ≠ 0 then [.wipeCall alg v, .directWipeCall .random false]
      else [.wipeCall alg v]) ∧
    ((vault_deadman_trigger e alg v env).filter isWipeInvocation).length =
      (if env.primaryRet ≠ 0 then 2 else 1) ∧
    (vault_deadman_trigger e alg v env).getLast? = some .powerOff ∧
    (vault_deadman_trigger e alg v env).dropLast.getLast? = some .syncCall ∧
    (∀ r, vault_deadman_trigger e alg v { env with fallbackRet := r } =
      vault_deadman_trigger e alg v env) ∧
    directPassPlan .random false = some [⟨true, [], false⟩] := by
  have h1 : (vault_deadman_trigger e alg v env).filter isWipeInvocation =
      if env.primaryRet ≠ 0 then [.wipeCall alg v, .directWipeCall .random false]
      else [.wipeCall alg v] := by
    by_cases hp : env.primaryRet ≠ 0 <;>
      by_cases he : e = true ∧ env.luksAvailable = true <;>
        simp [vault_deadman_trigger, hp, he, isWipeInvocation]
  refine ⟨h1, ?_, ?_, ?_, fun r => rfl, rfl⟩
  · rw [h1]
    by_cases hp : env.primaryRet ≠ 0 <;> simp [hp]
  · by_cases hp : env.primaryRet ≠ 0 <;>
      by_cases he : e = true ∧ env.luksAvailable = true <;>
        simp [vault_deadman_trigger, hp, he]
  · by_cases hp : env.primaryRet ≠ 0 <;>
      by_cases he : e = true ∧ env.luksAvailable = true <;>
        simp [vault_deadman_trigger, hp, he]

/-- Witness for C7: with the primary wipe failing, the trace holds exactly
the primary invocation and one random unverified fallback. -/
theorem C7_deadman_fallback_witness :
    (vault_deadman_trigger false .gutmann true ⟨true, true, -1, 0⟩).filter
      isWipeInvocation =
      [.wipeCall .gutmann true, .directWipeCall .random false] := by
  have h := (C7_deadman_fallback false .gutmann true ⟨true, true, -1, 0⟩).1
  simpa using h

/-- C10: for every algorithm value that is not one of the five implemented
write algorithms — `WIPE_VERIFY_ONLY` and `WIPE_COUNT` — the unified
engine returns -1 without invoking any write pass, for every device size,
buffer size, open/alloc outcome and channel behaviour: verify-only mode is
not implemented and writes zero bytes. -/
theorem C10_verify_only_unimplemented (alg : VaultAlg)
    (halg : alg ∉ [VaultAlg.gutmann, .dod, .dodShort, .random, .zero]) :
    ∀ (verify : Bool) (N B : Nat) (o a : Bool) (eenv : EngineEnv) (fuel : Nat),
      vault_wipe_device_direct alg verify N B o a eenv fuel = ⟨-1, [], []⟩ ∧
      (vault_wipe_device_direct alg verify N B o a eenv fuel).writeCalls = [] ∧
      ((vault_wipe_device_direct alg verify N B o a eenv fuel).writeCalls.map
        (fun c => c.2.2.written)).sum = 0 := by
  intro verify N B o a eenv fuel
  have hplan : directPassPlan alg verify = none := by
    cases alg <;> simp at halg <;> rfl
  have h1 : vault_wipe_device_direct alg verify N B o a eenv fuel = ⟨-1, [], []⟩ := by
    simp [vault_wipe_device_direct, hplan]
  exact ⟨h1, by rw [h1], by rw [h1]; rfl⟩

/-- Witness for C10: `WIPE_VERIFY_ONLY` on a fault-free 8-byte device. -/
theorem C10_verify_only_unimplemented_witness :
    vault_wipe_device_direct .verifyOnly true 8 2 true true allOkEngineEnv 9 =
      ⟨-1, [], []⟩ :=
  (C10_verify_only_unimplemented .verifyOnly (by decide)
    true 8 2 true true allOkEngineEnv 9).1

/-- CORRECTED C9 (the claim as stated fails on a failed wipe, see the
counterexample): the standalone CLI exits 0 on success and on `--help`,
exits 1 on an unknown option (or a `--device`/`--algorithm` with no value),
a missing `--device`, a non-root invocation, a missing or invalid
`--algorithm`, an unknown (zero) device size, a declined confirmation (a
typed line other than "YES") and a failed confirmation read (`fgets`
returning NULL) — all without touching the device; on a confirmed run
(via `--force` or by typing "YES") it unmounts, wipes, and returns
`wipe_execute`'s value: 0 on success, but on a failed wipe `-1` (observed
by the shell as 255), not 1; and any run that reaches a destructive
action (unmount or wipe) was invoked as root, i.e. the privilege check
precedes every destructive action. -/
theorem C9_cli_exit_codes_amended :
    (∀ (args : List String) (euid dsz : Nat) (line : Option String) (wret : Int),
      parseArgs args initOpts = .exit 1 →
      secure_wipe_main args euid dsz line wret = (1, [])) ∧
    (∀ (args : List String) (euid dsz : Nat) (line : Option String) (wret : Int),
      parseArgs args initOpts = .exit 0 →
      secure_wipe_main args euid dsz line wret = (0, [])) ∧
    (∀ (args : List String) (euid dsz : Nat) (line : Option String) (wret : Int)
      (o : CliOpts), parseArgs args initOpts = .opts o → o.device = none →
      secure_wipe_main args euid dsz line wret = (1, [])) ∧
    (∀ (args : List String) (euid dsz : Nat) (line : Option String) (wret : Int)
      (o : CliOpts) (d : String), parseArgs args initOpts = .opts o →
      o.device = some d → euid ≠ 0 →
      secure_wipe_main args euid dsz line wret = (1, [])) ∧
    (∀ (args : List String) (dsz : Nat) (line : Option String) (wret : Int)
      (o : CliOpts) (d : String), parseArgs args initOpts = .opts o →
      o.device = some d → o.info = false → o.algorithm = .count →
      secure_wipe_main args 0 dsz line wret = (1, [])) ∧
    (∀ (args : List String) (line : Option String) (wret : Int)
      (o : CliOpts) (d : String), parseArgs args initOpts = .opts o →
      o.device = some d → o.info = false → o.algorithm ≠ .count →
      secure_wipe_main args 0 0 line wret = (1, [])) ∧
    (∀ (args : List String) (dsz : Nat) (wret : Int) (o : CliOpts) (d : String)
      (s : String), parseArgs args initOpts = .opts o →
      o.device = some d → o.info = false → o.algorithm ≠ .count → dsz ≠ 0 →
      o.force = false →
      (s.data.takeWhile (fun c => c != '\n') == "YES".data) = false →
      secure_wipe_main args 0 dsz (some s) wret = (1, [])) ∧
    (∀ (args : List String) (dsz : Nat) (wret : Int) (o : CliOpts) (d : String),
      parseArgs args initOpts = .opts o →
      o.device = some d → o.info = false → o.algorithm ≠ .count → dsz ≠ 0 →
      o.force = false →
      secure_wipe_main args 0 dsz none wret = (1, [])) ∧
    (∀ (args : List String) (dsz : Nat) (line : Option String) (wret : Int)
      (o : CliOpts) (d : String), parseArgs args initOpts = .opts o →
      o.device = some d → o.info = false → o.algorithm ≠ .count → dsz ≠ 0 →
      o.force = true →
      secure_wipe_main args 0 dsz line wret = (wret, [.unmountDisk, .wipeRun])) ∧
    (∀ (args : List String) (dsz : Nat) (wret : Int) (o : CliOpts) (d : String)
      (s : String), parseArgs args initOpts = .opts o →
      o.device = some d → o.info = false → o.algorithm ≠ .count → dsz ≠ 0 →
      o.force = false →
      (s.data.takeWhile (fun c => c != '\n') == "YES".data) = true →
      secure_wipe_main args 0 dsz (some s) wret =
        (wret, [.unmountDisk, .wipeRun])) ∧
    (∀ (args : List String) (euid dsz : Nat) (line : Option String) (wret : Int),
      (secure_wipe_main args euid dsz line wret).2 ≠ [] → euid = 0) := by
  refine ⟨?_, ?_, ?_, ?_, ?_, ?_, ?_, ?_, ?_, ?_, ?_⟩
  · intro args euid dsz line wret h
    simp [secure_wipe_main, h]
  · intro args euid dsz line wret h
    simp [secure_wipe_main, h]
  · intro args euid dsz line wret o hp hd
    simp [secure_wipe_main, hp, hd]
  · intro args euid dsz line wret o d hp hd he
    simp [secure_wipe_main, hp, hd, he]
  · intro args dsz line wret o d hp hd hinfo halg
    simp [secure_wipe_main, hp, hd, hinfo, halg]
  · intro args line wret o d hp hd hinfo halg
    simp [secure_wipe_main, hp, hd, hinfo, halg]
  · intro args dsz wret o d s hp hd hinfo halg hdsz hforce hline
    simp [secure_wipe_main, hp, hd, hinfo, halg, hdsz, hforce, hline]
  · intro args dsz wret o d hp hd hinfo halg hdsz hforce
    simp [secure_wipe_main, hp, hd, hinfo, halg, hdsz, hforce]
  · intro args dsz line wret o d hp hd hinfo halg hdsz hforce
    simp [secure_wipe_main, hp, hd, hinfo, halg, hdsz, hforce]
  · intro args dsz wret o d s hp hd hinfo halg hdsz hforce hline
    simp [secure_wipe_main, hp, hd, hinfo, halg, hdsz, hforce, hline]
  · intro args euid dsz line wret h
    cases hp : parseArgs args initOpts with
    | exit c => simp [secure_wipe_main, hp] at h
    | opts o =>
      cases hd : o.device with
      | none => simp [secure_wipe_main, hp, hd] at h
      | some d =>
        by_cases he : euid = 0
        · exact he
        · simp [secure_wipe_main, hp, hd, he] at h

/-- Counterexample to C9 as stated: a root invocation with valid arguments
whose wipe fails makes `main` return `wipe_execute`'s -1, not the claimed
exit code 1. -/
theorem C9_cli_exit_codes_counterexample :
    secure_wipe_main ["--device", "/dev/disk4", "--algorithm", "zero", "--force"]
      0 1024 none (-1) = (-1, [.unmountDisk, .wipeRun]) ∧
    (-1 : Int) ≠ 1 := by
  refine ⟨?_, by decide⟩
  decide

/-- Witness for the amended C9: a non-forced root invocation whose user
types "YES" and whose wipe succeeds exits 0 after unmounting and wiping. -/
theorem C9_cli_exit_codes_amended_witness :
    secure_wipe_main ["--device", "/dev/disk4", "--algorithm", "zero"]
      0 1024 (some "YES\n") 0 = (0, [.unmountDisk, .wipeRun]) :=
  C9_cli_exit_codes_amended.2.2.2.2.2.2.2.2.2.1
    ["--device", "/dev/disk4", "--algorithm", "zero"]
    1024 0 ⟨some "/dev/disk4", .zero, false, false, false⟩ "/dev/disk4" "YES\n"
    (by decide) rfl rfl (by decide) (by decide) rfl (by decide)

end ShredOS
